import Mathlib

/-!
Verification development for the content-script translation engine of the
offline-browser-translate extension (src/content.js).

Text is modelled as `List Char`.  DOM geometry is modelled with rationals.
The Translator capability (`browserAPI.runtime.sendMessage` with type
TRANSLATE) is modelled as an oracle; machinery that merely displays status
messages is reduced to boolean signals.  `Char.isAlpha` stands in for the
Unicode letter test of the regex in `isTranslatableText`, and the float
constant 0.35 in `calculatePriority` is modelled as the rational 35/100;
no claim in this file depends on either approximation.
-/

set_option linter.unusedVariables false

/-! ### Text utilities (whitespace handling used by content.js) -/

/-- Leading whitespace of a string, as matched by the JS regex for a
whitespace run anchored at the start (content.js line 311). -/
def leadWs (s : List Char) : List Char := s.takeWhile Char.isWhitespace

/-- Trailing whitespace of a string, as matched by the JS regex for a
whitespace run anchored at the end (content.js line 312). -/
def trailWs (s : List Char) : List Char :=
  (s.reverse.takeWhile Char.isWhitespace).reverse

/-- JS `String.prototype.trim`. -/
def trimText (s : List Char) : List Char :=
  ((s.dropWhile Char.isWhitespace).reverse.dropWhile Char.isWhitespace).reverse

/-- JS `String.prototype.toLowerCase`, character by character. -/
def toLowerList (s : List Char) : List Char := s.map Char.toLower

/-- JS `String.prototype.startsWith` on char lists (needle, hay). -/
def headMatch : List Char → List Char → Bool
  | [], _ => true
  | _ :: _, [] => false
  | a :: as, b :: bs => a == b && headMatch as bs

/-- JS `String.prototype.includes`: `needle` occurs contiguously in `hay`. -/
def containsSub (hay needle : List Char) : Bool :=
  match hay with
  | [] => needle.isEmpty
  | _ :: rest => headMatch needle hay || containsSub rest needle

/-! ### Data model -/

/-- A bounding client rectangle (`parent.getBoundingClientRect()`). -/
structure Rect where
  top : ℚ
  bottom : ℚ
  left : ℚ
  right : ℚ
  width : ℚ
deriving DecidableEq, Repr

/-- Viewport dimensions (`window.innerWidth` / `window.innerHeight`). -/
structure Viewport where
  innerWidth : ℚ
  innerHeight : ℚ
deriving DecidableEq, Repr

/-- The attributes of one ancestor element read by the semantic walk in
`calculatePriority` (content.js lines 129-176). -/
structure AncestorInfo where
  tagName : List Char
  idAttr : List Char
  /-- `className`; `none` models a non-string value (e.g. SVGAnimatedString),
  which the code treats as the empty string. -/
  className : Option (List Char)
  role : List Char
deriving DecidableEq, Repr

/-- The parent element of a candidate text node: everything the extractor and
the priority scorer read from it. -/
structure ParentData where
  rect : Rect
  tagName : List Char
  idAttr : List Char
  className : Option (List Char)
  role : List Char
  isContentEditable : Bool
  /-- whether `getAttribute("translate")` equals the string no. -/
  translateNo : Bool
  /-- computed style `display: none`. -/
  displayNone : Bool
  /-- computed style `visibility: hidden`. -/
  visibilityHidden : Bool
  /-- ancestors of the parent element, nearest first (`parentElement` chain). -/
  above : List AncestorInfo
deriving DecidableEq, Repr

/-- The ancestor record of the parent element itself (the semantic walk in
`calculatePriority` starts at the parent). -/
def ParentData.selfInfo (p : ParentData) : AncestorInfo :=
  ⟨p.tagName, p.idAttr, p.className, p.role⟩

/-- A DOM text node as read by `calculatePriority`: its text content and its
parent element (`node.parentElement`, possibly null). -/
structure TextNodeInfo where
  textContent : List Char
  parent : Option ParentData
deriving DecidableEq, Repr

/-! ### Priority scorer (`calculatePriority`, content.js lines 92-207) -/

/-- Step 1 of `calculatePriority`: viewport membership bonus (content.js
lines 100-113).  +10000 if the parent rect intersects the viewport, and a
further +200 if its top edge lies in the top half of the viewport. -/
def viewportScore (vp : Viewport) (rect : Rect) : Int :=
  if rect.top < vp.innerHeight ∧ 0 < rect.bottom ∧
      rect.left < vp.innerWidth ∧ 0 < rect.right then
    (if 0 ≤ rect.top ∧ rect.top < vp.innerHeight / 2 then 10200 else 10000)
  else 0

/-- Step 2 of `calculatePriority`: trimmed text length buckets (content.js
lines 116-121). -/
def lengthScore (len : Nat) : Int :=
  if 200 ≤ len then 150
  else if 100 ≤ len then 100
  else if 50 ≤ len then 60
  else if 20 ≤ len then 30
  else -20

/-- Main-content indicator for one ancestor (content.js lines 136-151). -/
def isMainIndicator (a : AncestorInfo) : Bool :=
  let idL := toLowerList a.idAttr
  let classesL := match a.className with
    | some c => toLowerList c
    | none => []
  let roleL := toLowerList a.role
  a.tagName == "MAIN".toList || a.tagName == "ARTICLE".toList ||
  roleL == "main".toList || roleL == "article".toList ||
  containsSub idL ("content".toList) || containsSub idL ("article".toList) ||
  containsSub idL ("main-text".toList) || containsSub idL ("mw-content".toList) ||
  containsSub idL ("post".toList) || containsSub idL ("entry".toList) ||
  containsSub classesL ("content".toList) || containsSub classesL ("article".toList) ||
  containsSub classesL ("post".toList) || containsSub classesL ("entry".toList) ||
  containsSub classesL ("mw-parser-output".toList) || containsSub classesL ("mw-content".toList)

/-- Sidebar/nav indicator for one ancestor (content.js lines 153-172). -/
def isSidebarIndicator (a : AncestorInfo) : Bool :=
  let idL := toLowerList a.idAttr
  let classesL := match a.className with
    | some c => toLowerList c
    | none => []
  let roleL := toLowerList a.role
  a.tagName == "NAV".toList || a.tagName == "ASIDE".toList ||
  a.tagName == "FOOTER".toList || a.tagName == "HEADER".toList ||
  roleL == "navigation".toList || roleL == "complementary".toList ||
  roleL == "banner".toList || roleL == "contentinfo".toList || roleL == "menu".toList ||
  containsSub idL ("sidebar".toList) || containsSub idL ("nav".toList) ||
  containsSub idL ("menu".toList) || containsSub idL ("footer".toList) ||
  containsSub idL ("header".toList) || containsSub idL ("toc".toList) ||
  containsSub idL ("widget".toList) || containsSub idL ("prefs".toList) ||
  containsSub idL ("toolbar".toList) ||
  containsSub classesL ("sidebar".toList) || containsSub classesL ("nav".toList) ||
  containsSub classesL ("menu".toList) || containsSub classesL ("footer".toList) ||
  containsSub classesL ("header".toList) || containsSub classesL ("widget".toList) ||
  containsSub classesL ("toc".toList) || containsSub classesL ("infobox".toList) ||
  containsSub classesL ("mw-portlet".toList) || containsSub classesL ("vector-".toList)

/-- The ancestor chain walked by `calculatePriority`, starting at the parent
element itself. -/
def ancestorChain (p : ParentData) : List AncestorInfo := p.selfInfo :: p.above

/-- Step 3 of `calculatePriority`: the semantic ancestry walk of up to 15
levels and its additive resolution (content.js lines 124-180). -/
def semanticScore (p : ParentData) : Int :=
  let chain := (ancestorChain p).take 15
  let inMainContent := chain.any isMainIndicator
  let inSidebar := chain.any isSidebarIndicator
  if inMainContent && !inSidebar then 500
  else if inMainContent && inSidebar then 100
  else if inSidebar then -300
  else 0

/-- Step 4 of `calculatePriority`: immediate container tag bonus/penalty
(content.js lines 183-196). -/
def tagScore (t : List Char) : Int :=
  if t = "P".toList then 80
  else if t = "H1".toList then 70
  else if t = "H2".toList then 60
  else if t = "H3".toList then 50
  else if t = "H4".toList ∨ t = "H5".toList ∨ t = "H6".toList then 40
  else if t = "LI".toList then 30
  else if t = "TD".toList ∨ t = "TH".toList then 20
  else if t = "BLOCKQUOTE".toList ∨ t = "FIGCAPTION".toList then 25
  else if t = "SPAN".toList then 5
  else if t = "DIV".toList then 5
  else if t = "A".toList then -10
  else if t = "LABEL".toList then -30
  else if t = "BUTTON".toList then -50
  else 0

/-- Step 5 of `calculatePriority`: horizontal-centering penalty (content.js
lines 199-204). -/
def centerScore (vp : Viewport) (rect : Rect) : Int :=
  let centerX := rect.left + rect.width / 2
  let pageCenter := vp.innerWidth / 2
  if vp.innerWidth * (35 / 100) < |centerX - pageCenter| then -100 else 0

/-- `calculatePriority(node)` (content.js lines 92-207): 0 when the node has
no parent element, otherwise the sum of the five additive steps floored
at 0. -/
def calculatePriority (vp : Viewport) (node : TextNodeInfo) : Int :=
  match node.parent with
  | none => 0
  | some p =>
      max 0 (viewportScore vp p.rect
        + lengthScore (trimText node.textContent).length
        + semanticScore p
        + tagScore p.tagName
        + centerScore vp p.rect)

/-! ### Node eligibility (content.js lines 40-81) -/

/-- `SKIP_TAGS` (content.js lines 40-44). -/
def SKIP_TAGS : List (List Char) :=
  ["SCRIPT".toList, "STYLE".toList, "NOSCRIPT".toList, "IFRAME".toList,
   "OBJECT".toList, "EMBED".toList, "SVG".toList, "CANVAS".toList,
   "VIDEO".toList, "AUDIO".toList, "CODE".toList, "PRE".toList, "KBD".toList,
   "INPUT".toList, "TEXTAREA".toList, "SELECT".toList, "BUTTON".toList]

/-- `MIN_TEXT_LENGTH` (content.js line 47). -/
def MIN_TEXT_LENGTH : Nat := 2

/-- `shouldSkipElement(element)` (content.js lines 52-60); `none` models a
null/absent element. -/
def shouldSkipElement : Option ParentData → Bool
  | none => true
  | some e =>
      SKIP_TAGS.contains e.tagName || e.isContentEditable || e.translateNo ||
      e.idAttr == "llm-translator-status".toList

/-- `isTranslatableText(text)` (content.js lines 65-74); `Char.isAlpha`
stands in for the Unicode letter regex. -/
def isTranslatableText (text : List Char) : Bool :=
  let trimmed := trimText text
  decide (MIN_TEXT_LENGTH ≤ trimmed.length) && trimmed.any Char.isAlpha

/-! ### Registry and engine state -/

/-- One value of `textNodeMap` (content.js lines 251-254 and 301-333):
the live node reference (modelled as a numeric handle), the captured
original text, and the translation cache fields.  `translatedText = []`
models both an absent and an empty (falsy) cached translation. -/
structure NodeEntry where
  ref : Nat
  originalText : List Char
  translatedText : List Char
  translated : Bool
deriving DecidableEq, Repr

/-- A queue item `{id, text, priority}` (content.js line 256). -/
structure QueueItem where
  id : Nat
  text : List Char
  priority : Int
deriving DecidableEq, Repr

/-- The state of one live DOM text node: its current text content and
whether it is still attached/writable (a write to a detached node is the
event caught by the try/catch blocks of content.js). -/
structure DomNode where
  text : List Char
  attached : Bool
deriving DecidableEq, Repr

/-- The page DOM restricted to the text nodes the script may touch, keyed by
node handle. -/
abbrev Dom : Type := List (Nat × DomNode)

/-- The module-level mutable state of the content script (content.js
lines 19-37). -/
structure CState where
  textNodeMap : List (Nat × NodeEntry)
  translatedNodeSet : List Nat
  translationInProgress : Bool
  translationCancelled : Bool
  nextId : Nat
  currentTargetLanguage : List Char
  autoTranslateEnabled : Bool
  showGlow : Bool
  hasTranslationCache : Bool
  isShowingTranslations : Bool
  pendingTranslationQueue : List QueueItem
deriving DecidableEq, Repr

/-- `isNodeProcessed(node)` (content.js lines 79-81). -/
def isNodeProcessed (st : CState) (ref : Nat) : Bool :=
  st.translatedNodeSet.contains ref

/-- JS `Set.prototype.add` on the list-backed node set. -/
def setAdd (s : List Nat) (r : Nat) : List Nat :=
  if s.contains r then s else s ++ [r]

/-! ### Sorting by descending priority

`textItems.sort((a, b) => b.priority - a.priority)` (content.js lines 260,
293, 703).  Modelled as an insertion sort producing a permutation sorted by
descending priority; the relative order of ties is unspecified by the spec. -/

/-- Insert one item into a list sorted by descending priority. -/
def insertDesc (x : QueueItem) : List QueueItem → List QueueItem
  | [] => [x]
  | y :: ys => if y.priority ≤ x.priority then x :: y :: ys else y :: insertDesc x ys

/-- Sort a list of queue items by descending priority. -/
def sortDesc : List QueueItem → List QueueItem
  | [] => []
  | x :: xs => insertDesc x (sortDesc xs)

/-- The descending-priority order on queue items. -/
def prioGE (a b : QueueItem) : Prop := b.priority ≤ a.priority

theorem perm_insertDesc (x : QueueItem) (l : List QueueItem) :
    List.Perm (insertDesc x l) (x :: l) := by
  induction l with
  | nil => simp [insertDesc]
  | cons y ys ih =>
      by_cases h : y.priority ≤ x.priority
      · simp [insertDesc, h]
      · simp only [insertDesc, if_neg h]
        exact (List.Perm.cons y ih).trans (List.Perm.swap x y ys)

theorem perm_sortDesc (l : List QueueItem) : List.Perm (sortDesc l) l := by
  induction l with
  | nil => simp [sortDesc]
  | cons x xs ih =>
      exact (perm_insertDesc x (sortDesc xs)).trans (List.Perm.cons x ih)

theorem sorted_insertDesc (x : QueueItem) (l : List QueueItem)
    (h : l.Sorted prioGE) : (insertDesc x l).Sorted prioGE := by
  induction l with
  | nil => simp [insertDesc, List.Sorted]
  | cons y ys ih =>
      rcases List.sorted_cons.mp h with ⟨hy, hys⟩
      by_cases hc : y.priority ≤ x.priority
      · simp only [insertDesc, if_pos hc]
        refine List.sorted_cons.mpr ⟨?_, h⟩
        intro b hb
        rcases List.mem_cons.mp hb with rfl | hb
        · exact hc
        · exact le_trans (hy b hb) hc
      · simp only [insertDesc, if_neg hc]
        refine List.sorted_cons.mpr ⟨?_, ih hys⟩
        intro b hb
        have hb' := (perm_insertDesc x ys).mem_iff.mp hb
        rcases List.mem_cons.mp hb' with rfl | hb'
        · exact le_of_not_le hc
        · exact hy b hb'

theorem sorted_sortDesc (l : List QueueItem) : (sortDesc l).Sorted prioGE := by
  induction l with
  | nil => simp [sortDesc, List.Sorted]
  | cons x xs ih => exact sorted_insertDesc x (sortDesc xs) ih

/-! ### Text extractor (content.js lines 212-296) -/

/-- A candidate text node produced by the tree walker: its node handle and
the data the filter and the scorer read from it. -/
structure CandNode where
  ref : Nat
  info : TextNodeInfo
deriving DecidableEq, Repr

/-- The `acceptNode` filter of the tree walker (content.js lines 223-240). -/
def acceptNode (st : CState) (onlyNew : Bool) (n : CandNode) : Bool :=
  if onlyNew && isNodeProcessed st n.ref then false
  else if shouldSkipElement n.info.parent then false
  else if !isTranslatableText n.info.textContent then false
  else match n.info.parent with
    | some p => !(p.displayNone || p.visibilityHidden)
    | none => false

/-- Registering one accepted text node (content.js lines 246-256 and
276-282): assign the next id, store the node handle with its verbatim text
content, and emit `{id, text: trimmed, priority}`. -/
def registerNode (vp : Viewport) (st : CState) (n : CandNode) : QueueItem × CState :=
  let id := st.nextId
  let priority := calculatePriority vp n.info
  ( ⟨id, trimText n.info.textContent, priority⟩,
    { st with
        textNodeMap := st.textNodeMap ++ [(id, ⟨n.ref, n.info.textContent, [], false⟩)],
        nextId := id + 1 } )

/-- The walker loop of `extractTextNodes` (content.js lines 244-257). -/
def extractLoop (vp : Viewport) (onlyNew : Bool) : CState → List CandNode → List QueueItem × CState
  | st, [] => ([], st)
  | st, n :: rest =>
      if acceptNode st onlyNew n then
        let r1 := registerNode vp st n
        let r2 := extractLoop vp onlyNew r1.2 rest
        (r1.1 :: r2.1, r2.2)
      else extractLoop vp onlyNew st rest

/-- `extractTextNodes(root, onlyNew)` (content.js lines 212-263), with the
tree walk over `root` abstracted as the document-order list of candidate
text nodes.  Full mode clears the registry, the processed-node set and the
id counter first; the result is sorted by descending priority. -/
def extractTextNodesM (vp : Viewport) (walk : List CandNode) (onlyNew : Bool)
    (st : CState) : List QueueItem × CState :=
  let st0 := if onlyNew then st else
    { st with textNodeMap := [], translatedNodeSet := [], nextId := 0 }
  let r := extractLoop vp onlyNew st0 walk
  (sortDesc r.1, r.2)

/-- One node observed by the mutation watcher: either an individual text
node or an inserted element subtree (abstracted, as above, by the
document-order list of its candidate text nodes). -/
inductive AddedNode where
  | textNode (n : CandNode)
  | element (walk : List CandNode)
deriving DecidableEq, Repr

/-- The per-node loop of `extractNewTextNodes` (content.js lines 271-290). -/
def extractNewLoop (vp : Viewport) : CState → List AddedNode → List QueueItem × CState
  | st, [] => ([], st)
  | st, (AddedNode.textNode n) :: rest =>
      if !isNodeProcessed st n.ref && isTranslatableText n.info.textContent then
        match n.info.parent with
        | some p =>
            if !shouldSkipElement (some p) then
              let r1 := registerNode vp st n
              let r2 := extractNewLoop vp r1.2 rest
              (r1.1 :: r2.1, r2.2)
            else extractNewLoop vp st rest
        | none => extractNewLoop vp st rest
      else extractNewLoop vp st rest
  | st, (AddedNode.element walk) :: rest =>
      let r1 := extractTextNodesM vp walk true st
      let r2 := extractNewLoop vp r1.2 rest
      (r1.1 ++ r2.1, r2.2)

/-- `extractNewTextNodes(addedNodes)` (content.js lines 268-296). -/
def extractNewTextNodesM (vp : Viewport) (added : List AddedNode)
    (st : CState) : List QueueItem × CState :=
  let r := extractNewLoop vp st added
  (sortDesc r.1, r.2)

/-- An extraction run: full, incremental, or over newly observed nodes. -/
inductive ExtractCall where
  | full (walk : List CandNode)
  | incremental (walk : List CandNode)
  | newNodes (added : List AddedNode)

/-- Dispatch of the three extraction entry points. -/
def runExtract (vp : Viewport) : ExtractCall → CState → List QueueItem × CState
  | ExtractCall.full walk, st => extractTextNodesM vp walk false st
  | ExtractCall.incremental walk, st => extractTextNodesM vp walk true st
  | ExtractCall.newNodes added, st => extractNewTextNodesM vp added st

/-! ### Association-list lookup lemmas -/

theorem lookup_append_some {m₁ m₂ : List (Nat × NodeEntry)} {k : Nat} {v : NodeEntry}
    (h : List.lookup k m₁ = some v) : List.lookup k (m₁ ++ m₂) = some v := by
  induction m₁ with
  | nil => simp [List.lookup] at h
  | cons p rest ih =>
      rw [List.cons_append]
      rw [List.lookup] at h ⊢
      cases hb : (k == p.1) with
      | true => rw [hb] at h; simpa [hb] using h
      | false => rw [hb] at h; simpa [hb] using ih h

theorem lookup_eq_none_of_forall {m : List (Nat × NodeEntry)} {k : Nat}
    (h : ∀ p ∈ m, p.1 ≠ k) : List.lookup k m = none := by
  induction m with
  | nil => simp [List.lookup]
  | cons p rest ih =>
      rw [List.lookup]
      have hb : (k == p.1) = false := by
        apply beq_eq_false_iff_ne.mpr
        exact fun hk => (h p (by simp)) hk.symm
      rw [hb]
      exact ih (fun q hq => h q (by simp [hq]))

theorem lookup_append_none {m₁ m₂ : List (Nat × NodeEntry)} {k : Nat}
    (h : List.lookup k m₁ = none) :
    List.lookup k (m₁ ++ m₂) = List.lookup k m₂ := by
  induction m₁ with
  | nil => simp
  | cons p rest ih =>
      rw [List.lookup] at h
      cases hb : (k == p.1) with
      | true => rw [hb] at h; cases h
      | false =>
          rw [hb] at h
          rw [List.cons_append, List.lookup, hb]
          exact ih h

/-! ### Extraction invariants -/

/-- Registry well-formedness: every registered id is below the id counter.
Established by every full extraction and preserved by every operation. -/
def RegistryWF (st : CState) : Prop := ∀ p ∈ st.textNodeMap, p.1 < st.nextId

/-- What one extraction pass guarantees, relating the state before, the
emitted items, and the state after. -/
def ExtractSpec (st : CState) (onlyNew : Bool) (items : List QueueItem)
    (st' : CState) : Prop :=
  st'.translatedNodeSet = st.translatedNodeSet ∧
  st.nextId ≤ st'.nextId ∧
  (∃ tail, st'.textNodeMap = st.textNodeMap ++ tail) ∧
  (∀ it ∈ items, st.nextId ≤ it.id ∧ it.id < st'.nextId) ∧
  (items.map QueueItem.id).Nodup ∧
  RegistryWF st' ∧
  (∀ it ∈ items, ∃ e : NodeEntry,
      List.lookup it.id st'.textNodeMap = some e ∧
      trimText e.originalText = it.text ∧
      (onlyNew = true → st.translatedNodeSet.contains e.ref = false))

theorem ExtractSpec.nil {st : CState} {onlyNew : Bool} (hwf : RegistryWF st) :
    ExtractSpec st onlyNew [] st := by
  refine ⟨rfl, le_refl _, ⟨[], by simp⟩, by simp, by simp, hwf, by simp⟩

/-- Composing two consecutive extraction passes. -/
theorem ExtractSpec.comp {st st' st'' : CState} {onlyNew : Bool}
    {items₁ items₂ : List QueueItem}
    (h₁ : ExtractSpec st onlyNew items₁ st')
    (h₂ : ExtractSpec st' onlyNew items₂ st'') :
    ExtractSpec st onlyNew (items₁ ++ items₂) st'' := by
  obtain ⟨hs₁, hn₁, ⟨t₁, hm₁⟩, hb₁, hd₁, hw₁, hl₁⟩ := h₁
  obtain ⟨hs₂, hn₂, ⟨t₂, hm₂⟩, hb₂, hd₂, hw₂, hl₂⟩ := h₂
  refine ⟨hs₂.trans hs₁, hn₁.trans hn₂, ⟨t₁ ++ t₂, by rw [hm₂, hm₁, List.append_assoc]⟩,
    ?_, ?_, hw₂, ?_⟩
  · intro it hit
    rcases List.mem_append.mp hit with h | h
    · exact ⟨(hb₁ it h).1, lt_of_lt_of_le (hb₁ it h).2 hn₂⟩
    · exact ⟨le_trans hn₁ (hb₂ it h).1, (hb₂ it h).2⟩
  · rw [List.map_append]
    refine List.Nodup.append hd₁ hd₂ ?_
    intro a ha₁ ha₂
    rcases List.mem_map.mp ha₁ with ⟨it₁, hit₁, rfl⟩
    rcases List.mem_map.mp ha₂ with ⟨it₂, hit₂, heq⟩
    have b₁ := (hb₁ it₁ hit₁).2
    have b₂ := (hb₂ it₂ hit₂).1
    omega
  · intro it hit
    rcases List.mem_append.mp hit with h | h
    · obtain ⟨e, he, ht, hp⟩ := hl₁ it h
      have : List.lookup it.id st''.textNodeMap = some e := by
        rw [hm₂]; exact lookup_append_some he
      exact ⟨e, this, ht, hp⟩
    · obtain ⟨e, he, ht, hp⟩ := hl₂ it h
      refine ⟨e, he, ht, fun ho => ?_⟩
      have := hp ho
      rwa [hs₁] at this

theorem ExtractSpec.permItems {st st' : CState} {onlyNew : Bool}
    {items items' : List QueueItem}
    (h : ExtractSpec st onlyNew items st') (hp : List.Perm items items') :
    ExtractSpec st onlyNew items' st' := by
  obtain ⟨hs, hn, hm, hb, hd, hw, hl⟩ := h
  refine ⟨hs, hn, hm, fun it hit => hb it (hp.mem_iff.mpr hit), ?_, hw,
    fun it hit => hl it (hp.mem_iff.mpr hit)⟩
  exact ((hp.map QueueItem.id).nodup_iff).mp hd

theorem acceptNode_not_processed {st : CState} {onlyNew : Bool} {n : CandNode}
    (h : acceptNode st onlyNew n = true) (ho : onlyNew = true) :
    st.translatedNodeSet.contains n.ref = false := by
  cases hcc : st.translatedNodeSet.contains n.ref with
  | false => rfl
  | true =>
      exfalso
      rw [ho] at h
      simp [acceptNode, isNodeProcessed, hcc] at h
      exact h.1 (by simpa using hcc)

theorem registerNode_spec (vp : Viewport) (st : CState) (n : CandNode) (onlyNew : Bool)
    (hwf : RegistryWF st)
    (hnp : onlyNew = true → st.translatedNodeSet.contains n.ref = false) :
    ExtractSpec st onlyNew [(registerNode vp st n).1] (registerNode vp st n).2 := by
  refine ⟨rfl, by simp [registerNode], ⟨[(st.nextId, ⟨n.ref, n.info.textContent, [], false⟩)],
      by simp [registerNode]⟩, ?_, by simp, ?_, ?_⟩
  · intro it hit
    simp only [List.mem_singleton] at hit
    subst hit
    simp [registerNode]
  · intro p hp
    simp only [registerNode, List.mem_append, List.mem_singleton] at hp
    rcases hp with hp | hp
    · have := hwf p hp
      simp only [registerNode]
      omega
    · subst hp
      simp [registerNode]
  · intro it hit
    simp only [List.mem_singleton] at hit
    subst hit
    refine ⟨⟨n.ref, n.info.textContent, [], false⟩, ?_, rfl, hnp⟩
    simp only [registerNode]
    rw [lookup_append_none, List.lookup]
    · simp
    · exact lookup_eq_none_of_forall (fun p hp => Nat.ne_of_lt (hwf p hp))

theorem extractLoop_spec (vp : Viewport) (onlyNew : Bool) (nodes : List CandNode) :
    ∀ st : CState, RegistryWF st →
    ExtractSpec st onlyNew (extractLoop vp onlyNew st nodes).1
      (extractLoop vp onlyNew st nodes).2 := by
  induction nodes with
  | nil => intro st hwf; simpa [extractLoop] using ExtractSpec.nil hwf
  | cons n rest ih =>
      intro st hwf
      by_cases hacc : acceptNode st onlyNew n = true
      · simp only [extractLoop, if_pos hacc]
        have h1 := registerNode_spec vp st n onlyNew hwf
          (fun ho => acceptNode_not_processed hacc ho)
        have h2 := ih (registerNode vp st n).2 h1.2.2.2.2.2.1
        exact ExtractSpec.comp h1 h2
      · simp only [extractLoop, if_neg hacc]
        exact ih st hwf

theorem extractTextNodesM_spec (vp : Viewport) (walk : List CandNode) (onlyNew : Bool)
    (st : CState) (hwf : RegistryWF st) :
    ExtractSpec
      (if onlyNew then st
       else { st with textNodeMap := [], translatedNodeSet := [], nextId := 0 })
      onlyNew
      (extractTextNodesM vp walk onlyNew st).1
      (extractTextNodesM vp walk onlyNew st).2 := by
  have hwf0 : RegistryWF (if onlyNew then st
      else { st with textNodeMap := [], translatedNodeSet := [], nextId := 0 }) := by
    cases onlyNew
    · intro p hp; simp at hp
    · simpa using hwf
  have h := extractLoop_spec vp onlyNew walk _ hwf0
  simp only [extractTextNodesM]
  cases onlyNew
  · simp only [Bool.false_eq_true, if_false] at h ⊢
    exact h.permItems (perm_sortDesc _).symm
  · simp only [if_true] at h ⊢
    exact h.permItems (perm_sortDesc _).symm

theorem extractNewLoop_spec (vp : Viewport) (added : List AddedNode) :
    ∀ st : CState, RegistryWF st →
    ExtractSpec st true (extractNewLoop vp st added).1 (extractNewLoop vp st added).2 := by
  induction added with
  | nil => intro st hwf; simpa [extractNewLoop] using ExtractSpec.nil hwf
  | cons a rest ih =>
      intro st hwf
      cases a with
      | textNode n =>
          by_cases hcond :
              (!isNodeProcessed st n.ref && isTranslatableText n.info.textContent) = true
          · cases hpar : n.info.parent with
            | some p =>
                by_cases hskip : (!shouldSkipElement (some p)) = true
                · simp only [extractNewLoop, hcond, hpar, hskip, if_true, if_pos]
                  have hnp : st.translatedNodeSet.contains n.ref = false := by
                    have := (Bool.and_eq_true _ _).mp hcond
                    simpa [isNodeProcessed] using this.1
                  have h1 := registerNode_spec vp st n true hwf (fun _ => hnp)
                  have h2 := ih (registerNode vp st n).2 h1.2.2.2.2.2.1
                  exact ExtractSpec.comp h1 h2
                · simp only [extractNewLoop, hcond, hpar, if_true]
                  rw [if_neg hskip]
                  exact ih st hwf
            | none =>
                simp only [extractNewLoop, hcond, hpar, if_true]
                exact ih st hwf
          · simp only [extractNewLoop]
            rw [if_neg hcond]
            exact ih st hwf
      | element walk =>
          simp only [extractNewLoop]
          have h1 := extractTextNodesM_spec vp walk true st hwf
          simp only [if_true] at h1
          have h2 := ih (extractTextNodesM vp walk true st).2 h1.2.2.2.2.2.1
          exact ExtractSpec.comp h1 h2

theorem extractNewTextNodesM_spec (vp : Viewport) (added : List AddedNode)
    (st : CState) (hwf : RegistryWF st) :
    ExtractSpec st true (extractNewTextNodesM vp added st).1
      (extractNewTextNodesM vp added st).2 := by
  have h := extractNewLoop_spec vp added st hwf
  simp only [extractNewTextNodesM]
  exact h.permItems (perm_sortDesc _).symm

/-! ### Sample concrete inputs used by witnesses -/

/-- A plain paragraph parent element. -/
def sampleParent : ParentData :=
  ⟨⟨10, 30, 100, 500, 400⟩, "P".toList, [], none, [], false, false, false, false, []⟩

/-- One eligible candidate text node. -/
def sampleNode : CandNode := ⟨7, ⟨"Hello world".toList, some sampleParent⟩⟩

/-- A 1000x800 viewport. -/
def sampleVp : Viewport := ⟨1000, 800⟩

/-- The content-script state right after injection (content.js lines 19-37). -/
def idleState : CState :=
  ⟨[], [], false, false, 0, "en".toList, false, false, false, false, []⟩

/-! ### Claim C5 -/

/-- C5: for every extraction run (full, incremental over a subtree, or over
newly observed nodes), every emitted QueueItem has an id that is unique
within the epoch (no duplicate among the emitted ids and no collision with
any id already in the registry) and that resolves in the registry to an
entry whose stored original text, trimmed, equals the item text; and the
emitted sequence is sorted in descending order of priority. -/
theorem c5_extract_ids_unique_resolve_sorted (vp : Viewport) (call : ExtractCall)
    (st : CState) (hwf : RegistryWF st) :
    ((runExtract vp call st).1.map QueueItem.id).Nodup ∧
    (∀ it ∈ (runExtract vp call st).1, ∀ p ∈ st.textNodeMap,
        (match call with | ExtractCall.full _ => False | _ => True) → p.1 ≠ it.id) ∧
    (∀ it ∈ (runExtract vp call st).1, ∃ e : NodeEntry,
        List.lookup it.id (runExtract vp call st).2.textNodeMap = some e ∧
        trimText e.originalText = it.text) ∧
    ((runExtract vp call st).1.Sorted prioGE) := by
  cases call with
  | full walk =>
      have h := extractTextNodesM_spec vp walk false st hwf
      simp only [Bool.false_eq_true, if_false] at h
      refine ⟨h.2.2.2.2.1, by simp, fun it hit => ?_, ?_⟩
      · obtain ⟨e, he, ht, _⟩ := h.2.2.2.2.2.2 it hit
        exact ⟨e, he, ht⟩
      · simp only [runExtract, extractTextNodesM]
        exact sorted_sortDesc _
  | incremental walk =>
      have h := extractTextNodesM_spec vp walk true st hwf
      simp only [if_true] at h
      refine ⟨h.2.2.2.2.1, fun it hit p hp _ => ?_, fun it hit => ?_, ?_⟩
      · have hb := (h.2.2.2.1 it hit).1
        have := hwf p hp
        omega
      · obtain ⟨e, he, ht, _⟩ := h.2.2.2.2.2.2 it hit
        exact ⟨e, he, ht⟩
      · simp only [runExtract, extractTextNodesM]
        exact sorted_sortDesc _
  | newNodes added =>
      have h := extractNewTextNodesM_spec vp added st hwf
      refine ⟨h.2.2.2.2.1, fun it hit p hp _ => ?_, fun it hit => ?_, ?_⟩
      · have hb := (h.2.2.2.1 it hit).1
        have := hwf p hp
        omega
      · obtain ⟨e, he, ht, _⟩ := h.2.2.2.2.2.2 it hit
        exact ⟨e, he, ht⟩
      · simp only [runExtract, extractNewTextNodesM]
        exact sorted_sortDesc _

/-- Witness for C5 at a concrete full extraction over one eligible node. -/
theorem c5_witness :
    RegistryWF idleState ∧
    (((runExtract sampleVp (ExtractCall.full [sampleNode]) idleState).1.map
        QueueItem.id).Nodup ∧
      (∀ it ∈ (runExtract sampleVp (ExtractCall.full [sampleNode]) idleState).1,
          ∀ p ∈ idleState.textNodeMap,
          (match ExtractCall.full [sampleNode] with
            | ExtractCall.full _ => False | _ => True) → p.1 ≠ it.id) ∧
      (∀ it ∈ (runExtract sampleVp (ExtractCall.full [sampleNode]) idleState).1,
          ∃ e : NodeEntry,
          List.lookup it.id
              (runExtract sampleVp (ExtractCall.full [sampleNode]) idleState).2.textNodeMap =
            some e ∧
          trimText e.originalText = it.text) ∧
      ((runExtract sampleVp (ExtractCall.full [sampleNode]) idleState).1.Sorted prioGE)) :=
  ⟨by intro p hp; simp [idleState] at hp,
   c5_extract_ids_unique_resolve_sorted sampleVp (ExtractCall.full [sampleNode]) idleState
     (by intro p hp; simp [idleState] at hp)⟩

/-! ### Claim C6 -/

/-- C6: a full extraction clears the registry, the processed-node set and
the id counter before walking (its result does not depend on their prior
values, and the processed set is empty afterwards), while an incremental
extraction (either mode) never removes anything from the registry or the
processed-node set and never resets the id counter: it only appends fresh
entries, and every emitted item resolves to a node that was not in the
processed set. -/
theorem c6_full_clears_incremental_appends (vp : Viewport) (st : CState)
    (hwf : RegistryWF st) :
    (∀ walk : List CandNode,
        extractTextNodesM vp walk false st =
          extractTextNodesM vp walk false
            { st with textNodeMap := [], translatedNodeSet := [], nextId := 0 } ∧
        (extractTextNodesM vp walk false st).2.translatedNodeSet = []) ∧
    (∀ walk : List CandNode,
        (∃ tail, (extractTextNodesM vp walk true st).2.textNodeMap =
            st.textNodeMap ++ tail) ∧
        (extractTextNodesM vp walk true st).2.translatedNodeSet =
          st.translatedNodeSet ∧
        st.nextId ≤ (extractTextNodesM vp walk true st).2.nextId ∧
        (∀ it ∈ (extractTextNodesM vp walk true st).1, ∃ e : NodeEntry,
            List.lookup it.id (extractTextNodesM vp walk true st).2.textNodeMap =
              some e ∧
            st.translatedNodeSet.contains e.ref = false)) ∧
    (∀ added : List AddedNode,
        (∃ tail, (extractNewTextNodesM vp added st).2.textNodeMap =
            st.textNodeMap ++ tail) ∧
        (extractNewTextNodesM vp added st).2.translatedNodeSet =
          st.translatedNodeSet ∧
        st.nextId ≤ (extractNewTextNodesM vp added st).2.nextId ∧
        (∀ it ∈ (extractNewTextNodesM vp added st).1, ∃ e : NodeEntry,
            List.lookup it.id (extractNewTextNodesM vp added st).2.textNodeMap =
              some e ∧
            st.translatedNodeSet.contains e.ref = false)) := by
  refine ⟨fun walk => ⟨?_, ?_⟩, fun walk => ?_, fun added => ?_⟩
  · cases st
    rfl
  · have h := extractTextNodesM_spec vp walk false st hwf
    simp only [Bool.false_eq_true, if_false] at h
    exact h.1
  · have h := extractTextNodesM_spec vp walk true st hwf
    simp only [if_true] at h
    refine ⟨h.2.2.1, h.1, h.2.1, fun it hit => ?_⟩
    obtain ⟨e, he, _, hp⟩ := h.2.2.2.2.2.2 it hit
    exact ⟨e, he, hp rfl⟩
  · have h := extractNewTextNodesM_spec vp added st hwf
    refine ⟨h.2.2.1, h.1, h.2.1, fun it hit => ?_⟩
    obtain ⟨e, he, _, hp⟩ := h.2.2.2.2.2.2 it hit
    exact ⟨e, he, hp rfl⟩

/-- Witness for C6 at a concrete state with one processed node. -/
theorem c6_witness :
    RegistryWF { idleState with
        textNodeMap := [(0, ⟨7, "Hi".toList, [], true⟩)],
        translatedNodeSet := [7], nextId := 1 } ∧
    (∀ walk : List CandNode,
        (extractTextNodesM sampleVp walk false { idleState with
            textNodeMap := [(0, ⟨7, "Hi".toList, [], true⟩)],
            translatedNodeSet := [7], nextId := 1 }).2.translatedNodeSet = []) :=
  ⟨by intro p hp; simp [idleState] at hp; simp [hp],
   fun walk =>
     ((c6_full_clears_incremental_appends sampleVp _
       (by intro p hp; simp [idleState] at hp; simp [hp])).1 walk).2⟩

/-! ### Priority scorer bounds -/

/-- The viewport-intersection test of `calculatePriority` (content.js
lines 100-105) as a proposition. -/
def InViewportRect (vp : Viewport) (rect : Rect) : Prop :=
  rect.top < vp.innerHeight ∧ 0 < rect.bottom ∧
    rect.left < vp.innerWidth ∧ 0 < rect.right

theorem viewportScore_ge {vp : Viewport} {rect : Rect}
    (h : InViewportRect vp rect) : 10000 ≤ viewportScore vp rect := by
  have h' : rect.top < vp.innerHeight ∧ 0 < rect.bottom ∧
      rect.left < vp.innerWidth ∧ 0 < rect.right := h
  rw [viewportScore, if_pos h']
  split <;> norm_num

theorem viewportScore_eq_zero {vp : Viewport} {rect : Rect}
    (h : ¬ InViewportRect vp rect) : viewportScore vp rect = 0 := by
  have h' : ¬ (rect.top < vp.innerHeight ∧ 0 < rect.bottom ∧
      rect.left < vp.innerWidth ∧ 0 < rect.right) := h
  rw [viewportScore, if_neg h']

theorem lengthScore_eq_of_ge {len : Nat} (h : 200 ≤ len) : lengthScore len = 150 := by
  rw [lengthScore, if_pos h]

theorem lengthScore_eq_of_lt {len : Nat} (h : len < 20) : lengthScore len = -20 := by
  rw [lengthScore]
  rw [if_neg (by omega), if_neg (by omega), if_neg (by omega), if_neg (by omega)]

theorem semanticScore_ge_of_main {p : ParentData}
    (hm : ((ancestorChain p).take 15).any isMainIndicator = true) :
    100 ≤ semanticScore p := by
  rw [semanticScore]
  simp only [hm]
  cases hS : ((ancestorChain p).take 15).any isSidebarIndicator <;> simp

theorem semanticScore_le_of_sidebar {p : ParentData}
    (hs : ((ancestorChain p).take 15).any isSidebarIndicator = true) :
    semanticScore p ≤ 100 := by
  rw [semanticScore]
  simp only [hs]
  cases hM : ((ancestorChain p).take 15).any isMainIndicator <;> simp

theorem centerScore_nonpos (vp : Viewport) (rect : Rect) : centerScore vp rect ≤ 0 := by
  rw [centerScore]
  split <;> norm_num

theorem centerScore_ge (vp : Viewport) (rect : Rect) : -100 ≤ centerScore vp rect := by
  rw [centerScore]
  split <;> norm_num

theorem mainIndicator_of_tag {a : AncestorInfo} (h : a.tagName = "MAIN".toList) :
    isMainIndicator a = true := by
  simp [isMainIndicator, h]

theorem sidebarIndicator_of_tag {a : AncestorInfo} (h : a.tagName = "NAV".toList) :
    isSidebarIndicator a = true := by
  simp [isSidebarIndicator, h]

/-! ### Claim C9 -/

/-- C9: every priority score is non-negative, and an in-viewport long
paragraph (trimmed length at least 200, container tag P) with a MAIN
ancestor within the 15-level walk scores strictly higher than an
off-viewport short label (trimmed length below 20, container tag LABEL)
with a NAV ancestor within the walk. -/
theorem c9_priority_nonneg_and_ordering :
    (∀ (vp : Viewport) (n : TextNodeInfo), 0 ≤ calculatePriority vp n) ∧
    (∀ (vp : Viewport) (n1 n2 : TextNodeInfo) (p1 p2 : ParentData),
      n1.parent = some p1 →
      InViewportRect vp p1.rect →
      200 ≤ (trimText n1.textContent).length →
      p1.tagName = "P".toList →
      (∃ a ∈ (ancestorChain p1).take 15, a.tagName = "MAIN".toList) →
      n2.parent = some p2 →
      ¬ InViewportRect vp p2.rect →
      (trimText n2.textContent).length < 20 →
      p2.tagName = "LABEL".toList →
      (∃ a ∈ (ancestorChain p2).take 15, a.tagName = "NAV".toList) →
      calculatePriority vp n2 < calculatePriority vp n1) := by
  constructor
  · intro vp n
    rw [calculatePriority]
    cases n.parent with
    | none => norm_num
    | some p => exact le_max_left 0 _
  · intro vp n1 n2 p1 p2 h1p hvp1 hlen1 htag1 hmain1 h2p hvp2 hlen2 htag2 hnav2
    have e1 : calculatePriority vp n1 =
        max 0 (viewportScore vp p1.rect
          + lengthScore (trimText n1.textContent).length
          + semanticScore p1 + tagScore p1.tagName + centerScore vp p1.rect) := by
      rw [calculatePriority, h1p]
    have e2 : calculatePriority vp n2 =
        max 0 (viewportScore vp p2.rect
          + lengthScore (trimText n2.textContent).length
          + semanticScore p2 + tagScore p2.tagName + centerScore vp p2.rect) := by
      rw [calculatePriority, h2p]
    obtain ⟨a1, ha1, ha1t⟩ := hmain1
    obtain ⟨a2, ha2, ha2t⟩ := hnav2
    have hs1 : 100 ≤ semanticScore p1 :=
      semanticScore_ge_of_main
        (List.any_eq_true.mpr ⟨a1, ha1, mainIndicator_of_tag ha1t⟩)
    have hs2 : semanticScore p2 ≤ 100 :=
      semanticScore_le_of_sidebar
        (List.any_eq_true.mpr ⟨a2, ha2, sidebarIndicator_of_tag ha2t⟩)
    have ht1 : tagScore p1.tagName = 80 := by rw [htag1]; decide
    have ht2 : tagScore p2.tagName = -30 := by rw [htag2]; decide
    have hv1 := viewportScore_ge hvp1
    have hv2 := viewportScore_eq_zero hvp2
    have hl1 := lengthScore_eq_of_ge hlen1
    have hl2 := lengthScore_eq_of_lt hlen2
    have hc1 := centerScore_ge vp p1.rect
    have hc2 := centerScore_nonpos vp p2.rect
    have lb : (10230 : Int) ≤ calculatePriority vp n1 := by
      rw [e1]
      refine le_trans ?_ (le_max_right 0 _)
      rw [hl1, ht1]
      linarith
    have ub : calculatePriority vp n2 ≤ 50 := by
      rw [e2]
      refine max_le (by norm_num) ?_
      rw [hl2, ht2, hv2]
      linarith
    linarith

instance (vp : Viewport) (rect : Rect) : Decidable (InViewportRect vp rect) :=
  inferInstanceAs (Decidable (rect.top < vp.innerHeight ∧ 0 < rect.bottom ∧
    rect.left < vp.innerWidth ∧ 0 < rect.right))

set_option maxRecDepth 8000

/-- A long paragraph parent inside MAIN, intersecting the sample viewport. -/
def mainParaParent : ParentData :=
  ⟨⟨10, 30, 100, 500, 400⟩, "P".toList, [], none, [], false, false, false, false,
   [⟨"MAIN".toList, [], none, []⟩]⟩

/-- A 200-character text node under `mainParaParent`. -/
def mainPara : TextNodeInfo := ⟨List.replicate 200 'a', some mainParaParent⟩

/-- A short label parent inside NAV, below the sample viewport. -/
def navLabelParent : ParentData :=
  ⟨⟨900, 950, 100, 500, 400⟩, "LABEL".toList, [], none, [], false, false, false, false,
   [⟨"NAV".toList, [], none, []⟩]⟩

/-- A short text node under `navLabelParent`. -/
def navLabel : TextNodeInfo := ⟨"OK".toList, some navLabelParent⟩

/-- Witness for C9 at the concrete pair of nodes above. -/
theorem c9_witness :
    (mainPara.parent = some mainParaParent ∧
     InViewportRect sampleVp mainParaParent.rect ∧
     200 ≤ (trimText mainPara.textContent).length ∧
     mainParaParent.tagName = "P".toList ∧
     (∃ a ∈ (ancestorChain mainParaParent).take 15, a.tagName = "MAIN".toList) ∧
     navLabel.parent = some navLabelParent ∧
     ¬ InViewportRect sampleVp navLabelParent.rect ∧
     (trimText navLabel.textContent).length < 20 ∧
     navLabelParent.tagName = "LABEL".toList ∧
     (∃ a ∈ (ancestorChain navLabelParent).take 15, a.tagName = "NAV".toList)) ∧
    calculatePriority sampleVp navLabel < calculatePriority sampleVp mainPara :=
  ⟨⟨rfl, by decide, by decide, rfl, by decide, rfl, by decide, by decide, rfl, by decide⟩,
   c9_priority_nonneg_and_ordering.2 sampleVp mainPara navLabel mainParaParent navLabelParent
     rfl (by decide) (by decide) rfl (by decide) rfl (by decide) (by decide) rfl (by decide)⟩

/-! ### Node registry operations (content.js lines 301-376) -/

/-- Setting `textContent` of node `r` to `txt`. -/
def domSetText (dom : Dom) (r : Nat) (txt : List Char) : Dom :=
  dom.map (fun p => if p.1 = r then (p.1, { p.2 with text := txt }) else p)

/-- A guarded `textContent` write: succeeds only when the handle is present
and the node still attached; `none` models the exception caught by the
try/catch blocks around node writes in content.js. -/
def domWriteRes (dom : Dom) (r : Nat) (txt : List Char) : Option Dom :=
  match List.lookup r dom with
  | some n => if n.attached then some (domSetText dom r txt) else none
  | none => none

/-- Replacing the value stored under an id (mutating the entry object held
by `textNodeMap`). -/
def mapSetEntry (m : List (Nat × NodeEntry)) (id : Nat) (e : NodeEntry) :
    List (Nat × NodeEntry) :=
  m.map (fun p => if p.1 = id then (p.1, e) else p)

/-- Whether a `replaceTextNode` write can succeed right now: the id is
registered and its node is still attached. -/
def canWrite (st : CState) (dom : Dom) (id : Nat) : Bool :=
  match List.lookup id st.textNodeMap with
  | some e =>
      match List.lookup e.ref dom with
      | some n => n.attached
      | none => false
  | none => false

/-- `replaceTextNode(id, translatedText)` (content.js lines 301-333): write
leading whitespace of the original, the translation, then trailing
whitespace onto the live node; on success record the translation in the
entry and mark the node processed.  The cosmetic glow styling and dataset
flag on the parent element are omitted. -/
def replaceTextNode (st : CState) (dom : Dom) (id : Nat)
    (translatedText : List Char) : Bool × CState × Dom :=
  match List.lookup id st.textNodeMap with
  | none => (false, st, dom)
  | some e =>
      match domWriteRes dom e.ref
          (leadWs e.originalText ++ translatedText ++ trailWs e.originalText) with
      | some dom' =>
          (true,
           { st with
               textNodeMap := mapSetEntry st.textNodeMap id
                 { e with translated := true, translatedText := translatedText },
               translatedNodeSet := setAdd st.translatedNodeSet e.ref },
           dom')
      | none => (false, st, dom)

/-- The loop of `restoreOriginalText` (content.js lines 339-349): for every
translated entry, write back `originalText` and drop the node from the
processed set; a failed write is swallowed.  The entry itself is not
modified. -/
def restoreOrigLoop (dom : Dom) (set : List Nat) :
    List (Nat × NodeEntry) → List Nat × Dom
  | [] => (set, dom)
  | (_, e) :: rest =>
      if e.translated then
        match domWriteRes dom e.ref e.originalText with
        | some dom' => restoreOrigLoop dom' (set.erase e.ref) rest
        | none => restoreOrigLoop dom set rest
      else restoreOrigLoop dom set rest

/-- `restoreOriginalText()` (content.js lines 338-353): restores originals,
clears `isShowingTranslations`, and stops auto-translate. -/
def restoreOriginalText (st : CState) (dom : Dom) : CState × Dom :=
  let r := restoreOrigLoop dom st.translatedNodeSet st.textNodeMap
  ({ st with translatedNodeSet := r.1, isShowingTranslations := false,
             autoTranslateEnabled := false }, r.2)

/-- Accumulator of the `restoreCachedTranslations` loop. -/
structure CachedLoopResult where
  map : List (Nat × NodeEntry)
  set : List Nat
  dom : Dom
  count : Nat

/-- The loop of `restoreCachedTranslations` (content.js lines 362-373): for
every entry with a non-empty cached translation differing from the
original, write the cached translation back, set the translated flag, and
re-mark the node processed; a failed write is swallowed. -/
def restoreCachedLoop (dom : Dom) (set : List Nat) (cnt : Nat) :
    List (Nat × NodeEntry) → CachedLoopResult
  | [] => ⟨[], set, dom, cnt⟩
  | (i, e) :: rest =>
      if e.translatedText ≠ [] ∧ e.originalText ≠ e.translatedText then
        match domWriteRes dom e.ref e.translatedText with
        | some dom' =>
            let r := restoreCachedLoop dom' (setAdd set e.ref) (cnt + 1) rest
            ⟨(i, { e with translated := true }) :: r.map, r.set, r.dom, r.count⟩
        | none =>
            let r := restoreCachedLoop dom set cnt rest
            ⟨(i, e) :: r.map, r.set, r.dom, r.count⟩
      else
        let r := restoreCachedLoop dom set cnt rest
        ⟨(i, e) :: r.map, r.set, r.dom, r.count⟩

/-- `restoreCachedTranslations()` (content.js lines 358-376): a no-op
returning false when no translation cache exists; otherwise re-applies the
cached translations and reports whether anything was restored. -/
def restoreCachedTranslations (st : CState) (dom : Dom) : Bool × CState × Dom :=
  if st.hasTranslationCache = false then (false, st, dom)
  else
    let r := restoreCachedLoop dom st.translatedNodeSet 0 st.textNodeMap
    (decide (0 < r.count),
     { st with textNodeMap := r.map, translatedNodeSet := r.set,
               isShowingTranslations := true },
     r.dom)

theorem lookup_domSetText (dom : Dom) (r : Nat) (txt : List Char) (j : Nat) :
    List.lookup j (domSetText dom r txt) =
      (List.lookup j dom).map (fun n => if j = r then { n with text := txt } else n) := by
  induction dom with
  | nil => simp [domSetText]
  | cons p rest ih =>
      rcases p with ⟨k, n⟩
      by_cases hkr : k = r
      · subst hkr
        by_cases hjk : j = k
        · subst hjk
          simp [domSetText, List.lookup_cons]
        · have hb : (j == k) = false := beq_eq_false_iff_ne.mpr hjk
          simp only [domSetText] at ih
          simp [domSetText, List.lookup_cons, hb, hjk]
          simpa [hjk] using ih
      · by_cases hjk : j = k
        · subst hjk
          simp [domSetText, List.lookup_cons, hkr, ih]
        · have hb : (j == k) = false := beq_eq_false_iff_ne.mpr hjk
          simp only [domSetText] at ih
          simp [domSetText, List.lookup_cons, hb, hjk, hkr]
          exact ih

theorem lookup_mapSetEntry (m : List (Nat × NodeEntry)) (id : Nat) (e : NodeEntry)
    (j : Nat) :
    List.lookup j (mapSetEntry m id e) =
      (List.lookup j m).map (fun old => if j = id then e else old) := by
  induction m with
  | nil => simp [mapSetEntry]
  | cons p rest ih =>
      rcases p with ⟨k, v⟩
      by_cases hkr : k = id
      · subst hkr
        by_cases hjk : j = k
        · subst hjk
          simp [mapSetEntry, List.lookup_cons]
        · have hb : (j == k) = false := beq_eq_false_iff_ne.mpr hjk
          simp only [mapSetEntry] at ih
          simp [mapSetEntry, List.lookup_cons, hb, hjk]
          simpa [hjk] using ih
      · by_cases hjk : j = k
        · subst hjk
          simp [mapSetEntry, List.lookup_cons, hkr, ih]
        · have hb : (j == k) = false := beq_eq_false_iff_ne.mpr hjk
          simp only [mapSetEntry] at ih
          simp [mapSetEntry, List.lookup_cons, hb, hjk, hkr]
          exact ih

theorem setAdd_contains_self (s : List Nat) (r : Nat) :
    (setAdd s r).contains r = true := by
  rw [setAdd]
  by_cases h : s.contains r = true
  · rw [if_pos h]; exact h
  · rw [if_neg h]
    simp

theorem domWriteRes_eq_some {dom : Dom} {r : Nat} {txt : List Char} {dom' : Dom}
    (h : domWriteRes dom r txt = some dom') :
    dom' = domSetText dom r txt ∧
      ∃ n : DomNode, List.lookup r dom = some n ∧ n.attached = true := by
  cases hl : List.lookup r dom with
  | none => simp [domWriteRes, hl] at h
  | some n =>
      cases ha : n.attached with
      | false => simp [domWriteRes, hl, ha] at h
      | true =>
          simp only [domWriteRes, hl, ha, if_true, Option.some.injEq] at h
          exact ⟨h.symm, n, rfl, ha⟩

theorem domWriteRes_attached {dom : Dom} {r : Nat} {txt : List Char}
    {n : DomNode} (hl : List.lookup r dom = some n) (ha : n.attached = true) :
    domWriteRes dom r txt = some (domSetText dom r txt) := by
  simp [domWriteRes, hl, ha]

theorem canWrite_after_write (st : CState) (dom : Dom) (id : Nat) (e e' : NodeEntry)
    (h1 : List.lookup id st.textNodeMap = some e) (href : e'.ref = e.ref)
    (txt : List Char) (s' : List Nat) (j : Nat) :
    canWrite { st with textNodeMap := mapSetEntry st.textNodeMap id e',
                       translatedNodeSet := s' }
       (domSetText dom e.ref txt) j = canWrite st dom j := by
  cases h3 : List.lookup j st.textNodeMap with
  | none => simp [canWrite, lookup_mapSetEntry, h3]
  | some f =>
      by_cases hj : j = id
      · subst hj
        have hef : e = f := by rw [h1] at h3; exact Option.some_inj.mp h3
        subst hef
        simp only [canWrite, lookup_mapSetEntry, h3, Option.map_some, Option.map_some',
          eq_self_iff_true, if_true, lookup_domSetText]
        rw [href]
        cases h4 : List.lookup e.ref dom with
        | none => simp [h4]
        | some g => simp [h4]
      · simp only [canWrite, lookup_mapSetEntry, h3, Option.map_some, Option.map_some',
          if_neg hj, lookup_domSetText]
        cases h4 : List.lookup f.ref dom with
        | none => simp [h4]
        | some g =>
            by_cases hfr : f.ref = e.ref
            · rw [hfr] at h4
              simp [hfr, h4]
            · simp [h4, hfr]

/-- A `replaceTextNode` call never changes which writes can succeed later:
ids, node handles and attachment are preserved. -/
theorem canWrite_replaceTextNode (st : CState) (dom : Dom) (id : Nat)
    (t : List Char) (j : Nat) :
    canWrite (replaceTextNode st dom id t).2.1
      (replaceTextNode st dom id t).2.2 j = canWrite st dom j := by
  cases h1 : List.lookup id st.textNodeMap with
  | none => simp only [replaceTextNode, h1]
  | some e =>
      cases h2 : domWriteRes dom e.ref
          (leadWs e.originalText ++ t ++ trailWs e.originalText) with
      | none => simp only [replaceTextNode, h1, h2]
      | some dom2 =>
          simp only [replaceTextNode, h1, h2]
          obtain ⟨hd, n, hn, ha⟩ := domWriteRes_eq_some h2
          subst hd
          exact canWrite_after_write st dom id e
            { e with translated := true, translatedText := t } h1 rfl _ _ j

theorem canWrite_eq_fst (st : CState) (dom : Dom) (id : Nat) (t : List Char) :
    (replaceTextNode st dom id t).1 = canWrite st dom id := by
  cases h1 : List.lookup id st.textNodeMap with
  | none => simp only [replaceTextNode, canWrite, h1]
  | some e =>
      cases h2 : domWriteRes dom e.ref
          (leadWs e.originalText ++ t ++ trailWs e.originalText) with
      | none =>
          simp only [replaceTextNode, canWrite, h1, h2]
          cases hl : List.lookup e.ref dom with
          | none => rfl
          | some n =>
              cases ha : n.attached with
              | false => simp [ha]
              | true =>
                  exfalso
                  rw [domWriteRes_attached hl ha] at h2
                  cases h2
      | some dom2 =>
          simp only [replaceTextNode, canWrite, h1, h2]
          obtain ⟨hd, n, hn, ha⟩ := domWriteRes_eq_some h2
          simp [hn, ha]

/-! ### Claim C7 -/

/-- C7: for a registered id whose node is still attached, `replaceTextNode`
writes exactly the leading whitespace of the original text, then the
translated text, then the trailing whitespace of the original text onto the
node, marks the node processed, records the translated text and sets the
translated flag, and returns true; when the write is impossible (unknown id,
vanished or detached node) it returns false and leaves the registry, the
processed set and the DOM untouched. -/
theorem c7_replaceTextNode_write (st : CState) (dom : Dom) (id : Nat) (t : List Char) :
    (∀ (e : NodeEntry) (n : DomNode), List.lookup id st.textNodeMap = some e →
        List.lookup e.ref dom = some n → n.attached = true →
        (replaceTextNode st dom id t).1 = true ∧
        List.lookup e.ref (replaceTextNode st dom id t).2.2 =
          some ⟨leadWs e.originalText ++ t ++ trailWs e.originalText, true⟩ ∧
        List.lookup id (replaceTextNode st dom id t).2.1.textNodeMap =
          some { e with translated := true, translatedText := t } ∧
        (replaceTextNode st dom id t).2.1.translatedNodeSet.contains e.ref = true) ∧
    (canWrite st dom id = false → replaceTextNode st dom id t = (false, st, dom)) := by
  constructor
  · intro e n h1 h2 ha
    refine ⟨?_, ?_, ?_, ?_⟩
    · simp only [replaceTextNode, h1, domWriteRes_attached h2 ha]
    · simp only [replaceTextNode, h1, domWriteRes_attached h2 ha]
      rw [lookup_domSetText, h2]
      simp [ha]
    · simp only [replaceTextNode, h1, domWriteRes_attached h2 ha]
      rw [lookup_mapSetEntry, h1]
      simp
    · simp only [replaceTextNode, h1, domWriteRes_attached h2 ha]
      exact setAdd_contains_self _ _
  · intro hcw
    cases h1 : List.lookup id st.textNodeMap with
    | none => simp only [replaceTextNode, h1]
    | some e =>
        cases h2 : domWriteRes dom e.ref
            (leadWs e.originalText ++ t ++ trailWs e.originalText) with
        | none => simp only [replaceTextNode, h1, h2]
        | some dom2 =>
            exfalso
            obtain ⟨hd, n, hn, ha⟩ := domWriteRes_eq_some h2
            rw [canWrite, h1] at hcw
            simp [hn, ha] at hcw

/-- A registered entry used by concrete witnesses. -/
def replEntry : NodeEntry := ⟨5, " Hi ".toList, [], false⟩

/-- A one-entry registry state used by concrete witnesses. -/
def replState : CState := { idleState with textNodeMap := [(0, replEntry)], nextId := 1 }

/-- A one-node DOM used by concrete witnesses. -/
def replDom : Dom := [(5, ⟨" Hi ".toList, true⟩)]

/-- Witness for C7 at a concrete registered, attached node. -/
theorem c7_witness :
    (List.lookup 0 replState.textNodeMap = some replEntry ∧
     List.lookup replEntry.ref replDom = some (⟨" Hi ".toList, true⟩ : DomNode) ∧
     (⟨" Hi ".toList, true⟩ : DomNode).attached = true) ∧
    ((replaceTextNode replState replDom 0 ("Hola".toList)).1 = true ∧
     List.lookup replEntry.ref (replaceTextNode replState replDom 0 ("Hola".toList)).2.2 =
       some ⟨leadWs replEntry.originalText ++ "Hola".toList ++
         trailWs replEntry.originalText, true⟩ ∧
     List.lookup 0 (replaceTextNode replState replDom 0 ("Hola".toList)).2.1.textNodeMap =
       some { replEntry with translated := true, translatedText := "Hola".toList } ∧
     (replaceTextNode replState replDom 0
         ("Hola".toList)).2.1.translatedNodeSet.contains replEntry.ref = true) :=
  ⟨⟨by decide, by decide, rfl⟩,
   (c7_replaceTextNode_write replState replDom 0 ("Hola".toList)).1 replEntry
     ⟨" Hi ".toList, true⟩ (by decide) (by decide) rfl⟩

/-! ### Frame lemmas for the restore loops -/

theorem restoreOrigLoop_frame (l : List (Nat × NodeEntry)) (r : Nat) :
    ∀ (dom : Dom) (set : List Nat), (∀ p ∈ l, p.2.ref ≠ r) →
    List.lookup r (restoreOrigLoop dom set l).2 = List.lookup r dom := by
  induction l with
  | nil => intro dom set h; rfl
  | cons p rest ih =>
      intro dom set h
      rcases p with ⟨i, f⟩
      have hfr : f.ref ≠ r := h (i, f) (by simp)
      have hrest : ∀ q ∈ rest, q.2.ref ≠ r := fun q hq => h q (by simp [hq])
      cases hft : f.translated with
      | false =>
          simp only [restoreOrigLoop, hft, Bool.false_eq_true, if_false]
          exact ih dom set hrest
      | true =>
          cases hw : domWriteRes dom f.ref f.originalText with
          | none =>
              simp only [restoreOrigLoop, hft, if_true, hw]
              exact ih dom set hrest
          | some dom' =>
              simp only [restoreOrigLoop, hft, if_true, hw]
              obtain ⟨hd, m, hm, hma⟩ := domWriteRes_eq_some hw
              subst hd
              rw [ih _ _ hrest, lookup_domSetText]
              cases List.lookup r dom with
              | none => rfl
              | some g => simp [Ne.symm hfr]

theorem restoreOrigLoop_attached (l : List (Nat × NodeEntry)) :
    ∀ (dom : Dom) (set : List Nat) (r : Nat) (g : DomNode),
    List.lookup r dom = some g →
    ∃ txt, List.lookup r (restoreOrigLoop dom set l).2 = some ⟨txt, g.attached⟩ := by
  induction l with
  | nil => intro dom set r g hg; exact ⟨g.text, by rw [restoreOrigLoop, hg]⟩
  | cons p rest ih =>
      intro dom set r g hg
      rcases p with ⟨i, f⟩
      cases hft : f.translated with
      | false =>
          simp only [restoreOrigLoop, hft, Bool.false_eq_true, if_false]
          exact ih dom set r g hg
      | true =>
          cases hw : domWriteRes dom f.ref f.originalText with
          | none =>
              simp only [restoreOrigLoop, hft, if_true, hw]
              exact ih dom set r g hg
          | some dom' =>
              simp only [restoreOrigLoop, hft, if_true, hw]
              obtain ⟨hd, m, hm, hma⟩ := domWriteRes_eq_some hw
              subst hd
              by_cases hr : r = f.ref
              · refine ih _ _ r { g with text := f.originalText } ?_
                rw [lookup_domSetText, hg]
                simp [hr]
              · refine ih _ _ r g ?_
                rw [lookup_domSetText, hg]
                simp [hr]

theorem restoreOrigLoop_append (l₁ l₂ : List (Nat × NodeEntry)) :
    ∀ (dom : Dom) (set : List Nat),
    restoreOrigLoop dom set (l₁ ++ l₂) =
      restoreOrigLoop (restoreOrigLoop dom set l₁).2 (restoreOrigLoop dom set l₁).1 l₂ := by
  induction l₁ with
  | nil => intro dom set; rfl
  | cons p rest ih =>
      intro dom set
      rcases p with ⟨i, f⟩
      cases hft : f.translated with
      | false =>
          simp only [List.cons_append, restoreOrigLoop, hft, Bool.false_eq_true, if_false]
          exact ih dom set
      | true =>
          cases hw : domWriteRes dom f.ref f.originalText with
          | none =>
              simp only [List.cons_append, restoreOrigLoop, hft, if_true, hw]
              exact ih dom set
          | some dom' =>
              simp only [List.cons_append, restoreOrigLoop, hft, if_true, hw]
              exact ih dom' (set.erase f.ref)

theorem restoreCachedLoop_frame (l : List (Nat × NodeEntry)) (r : Nat) :
    ∀ (dom : Dom) (set : List Nat) (cnt : Nat), (∀ p ∈ l, p.2.ref ≠ r) →
    List.lookup r (restoreCachedLoop dom set cnt l).dom = List.lookup r dom := by
  induction l with
  | nil => intro dom set cnt h; rfl
  | cons p rest ih =>
      intro dom set cnt h
      rcases p with ⟨i, f⟩
      have hfr : f.ref ≠ r := h (i, f) (by simp)
      have hrest : ∀ q ∈ rest, q.2.ref ≠ r := fun q hq => h q (by simp [hq])
      by_cases hc : f.translatedText ≠ [] ∧ f.originalText ≠ f.translatedText
      · cases hw : domWriteRes dom f.ref f.translatedText with
        | none =>
            simp only [restoreCachedLoop, if_pos hc, hw]
            exact ih dom set cnt hrest
        | some dom' =>
            simp only [restoreCachedLoop, if_pos hc, hw]
            obtain ⟨hd, m, hm, hma⟩ := domWriteRes_eq_some hw
            subst hd
            rw [ih _ _ _ hrest, lookup_domSetText]
            cases List.lookup r dom with
            | none => rfl
            | some g => simp [Ne.symm hfr]
      · simp only [restoreCachedLoop, if_neg hc]
        exact ih dom set cnt hrest

theorem restoreCachedLoop_append_dom (l₁ l₂ : List (Nat × NodeEntry)) :
    ∀ (dom : Dom) (set : List Nat) (cnt : Nat),
    (restoreCachedLoop dom set cnt (l₁ ++ l₂)).dom =
      (restoreCachedLoop (restoreCachedLoop dom set cnt l₁).dom
        (restoreCachedLoop dom set cnt l₁).set
        (restoreCachedLoop dom set cnt l₁).count l₂).dom := by
  induction l₁ with
  | nil => intro dom set cnt; rfl
  | cons p rest ih =>
      intro dom set cnt
      rcases p with ⟨i, f⟩
      by_cases hc : f.translatedText ≠ [] ∧ f.originalText ≠ f.translatedText
      · cases hw : domWriteRes dom f.ref f.translatedText with
        | none =>
            simp only [List.cons_append, restoreCachedLoop, if_pos hc, hw]
            exact ih dom set cnt
        | some dom' =>
            simp only [List.cons_append, restoreCachedLoop, if_pos hc, hw]
            exact ih dom' (setAdd set f.ref) (cnt + 1)
      · simp only [List.cons_append, restoreCachedLoop, if_neg hc]
        exact ih dom set cnt

theorem restoreOrigLoop_target (pre post : List (Nat × NodeEntry)) (id : Nat)
    (e : NodeEntry) (dom : Dom) (set : List Nat) (n : DomNode)
    (hpre : ∀ p ∈ pre, p.2.ref ≠ e.ref) (hpost : ∀ p ∈ post, p.2.ref ≠ e.ref)
    (htr : e.translated = true)
    (hn : List.lookup e.ref dom = some n) (ha : n.attached = true) :
    List.lookup e.ref (restoreOrigLoop dom set (pre ++ (id, e) :: post)).2 =
      some ⟨e.originalText, true⟩ := by
  rw [restoreOrigLoop_append]
  have hdpre : List.lookup e.ref (restoreOrigLoop dom set pre).2 = some n := by
    rw [restoreOrigLoop_frame pre e.ref dom set hpre]; exact hn
  have hw := @domWriteRes_attached (restoreOrigLoop dom set pre).2 e.ref
    e.originalText n hdpre ha
  simp only [restoreOrigLoop, htr, if_true, hw]
  rw [restoreOrigLoop_frame post e.ref _ _ hpost]
  rw [lookup_domSetText, hdpre]
  simp [ha]

theorem restoreCachedLoop_target (pre post : List (Nat × NodeEntry)) (id : Nat)
    (e : NodeEntry) (dom : Dom) (set : List Nat) (cnt : Nat)
    (hpre : ∀ p ∈ pre, p.2.ref ≠ e.ref) (hpost : ∀ p ∈ post, p.2.ref ≠ e.ref)
    (htt : e.translatedText ≠ [])
    (hl : List.lookup e.ref dom = some ⟨e.originalText, true⟩) :
    List.lookup e.ref (restoreCachedLoop dom set cnt (pre ++ (id, e) :: post)).dom =
      some ⟨e.translatedText, true⟩ := by
  rw [restoreCachedLoop_append_dom]
  have hdpre : List.lookup e.ref (restoreCachedLoop dom set cnt pre).dom =
      some ⟨e.originalText, true⟩ := by
    rw [restoreCachedLoop_frame pre e.ref dom set cnt hpre]; exact hl
  by_cases hoe : e.originalText = e.translatedText
  · have hcond : ¬(e.translatedText ≠ [] ∧ e.originalText ≠ e.translatedText) := by
      simp [hoe]
    simp only [restoreCachedLoop, if_neg hcond]
    rw [restoreCachedLoop_frame post e.ref _ _ _ hpost, hdpre, hoe]
  · have hcond : e.translatedText ≠ [] ∧ e.originalText ≠ e.translatedText := ⟨htt, hoe⟩
    have hw := @domWriteRes_attached (restoreCachedLoop dom set cnt pre).dom e.ref
      e.translatedText ⟨e.originalText, true⟩ hdpre rfl
    simp only [restoreCachedLoop, if_pos hcond, hw]
    rw [restoreCachedLoop_frame post e.ref _ _ _ hpost]
    rw [lookup_domSetText, hdpre]
    simp

/-! ### Claim C8 -/

/-- C8: with a translation cache present, running `restoreOriginalText` and
then `restoreCachedTranslations` leaves every still-attached translated node
displaying its cached translated text again, and neither function consults
the Translator (neither takes the Translator oracle as an input); this works
because `restoreOriginalText` writes back `originalText` on the node while
leaving the registry entry — in particular its translated flag and cached
`translatedText` — completely untouched. -/
theorem c8_restore_roundtrip (st : CState) (dom : Dom) (id : Nat) (e : NodeEntry)
    (n : DomNode)
    (hcache : st.hasTranslationCache = true)
    (hmem : (id, e) ∈ st.textNodeMap)
    (htr : e.translated = true)
    (htt : e.translatedText ≠ [])
    (hrefs : (st.textNodeMap.map (fun p => p.2.ref)).Nodup)
    (hn : List.lookup e.ref dom = some n)
    (ha : n.attached = true) :
    (restoreOriginalText st dom).1.textNodeMap = st.textNodeMap ∧
    List.lookup e.ref (restoreOriginalText st dom).2 = some ⟨e.originalText, true⟩ ∧
    List.lookup e.ref
        (restoreCachedTranslations (restoreOriginalText st dom).1
          (restoreOriginalText st dom).2).2.2 =
      some ⟨e.translatedText, true⟩ := by
  obtain ⟨pre, post, hsplit⟩ := List.append_of_mem hmem
  have hrefs' := hrefs
  rw [hsplit, List.map_append, List.map_cons] at hrefs'
  obtain ⟨hnd1, hnd2, hdisj⟩ := List.nodup_append.mp hrefs'
  have hpost : ∀ p ∈ post, p.2.ref ≠ e.ref := by
    intro p hp heq
    exact (List.nodup_cons.mp hnd2).1 (List.mem_map.mpr ⟨p, hp, heq⟩)
  have hpre : ∀ p ∈ pre, p.2.ref ≠ e.ref := by
    intro p hp heq
    exact hdisj (List.mem_map.mpr ⟨p, hp, heq⟩) (by simp)
  have hdom1 : List.lookup e.ref (restoreOriginalText st dom).2 =
      some ⟨e.originalText, true⟩ := by
    show List.lookup e.ref
        (restoreOrigLoop dom st.translatedNodeSet st.textNodeMap).2 = _
    rw [hsplit]
    exact restoreOrigLoop_target pre post id e dom st.translatedNodeSet n
      hpre hpost htr hn ha
  refine ⟨rfl, hdom1, ?_⟩
  have hc1 : (restoreOriginalText st dom).1.hasTranslationCache = true := hcache
  have hcf : ¬((restoreOriginalText st dom).1.hasTranslationCache = false) := by
    rw [hc1]; simp
  simp only [restoreCachedTranslations, if_neg hcf]
  show List.lookup e.ref
      (restoreCachedLoop (restoreOriginalText st dom).2
        (restoreOriginalText st dom).1.translatedNodeSet 0 st.textNodeMap).dom = _
  rw [hsplit]
  exact restoreCachedLoop_target pre post id e (restoreOriginalText st dom).2
    (restoreOriginalText st dom).1.translatedNodeSet 0 hpre hpost htt hdom1

/-- A translated entry with a cached translation, for the C8 witness. -/
def c8Entry : NodeEntry := ⟨5, "Hi".toList, "Hola".toList, true⟩

/-- A state holding one applied translation, for the C8 witness. -/
def c8State : CState :=
  { idleState with
      textNodeMap := [(0, c8Entry)]
      translatedNodeSet := [5]
      nextId := 1
      hasTranslationCache := true
      isShowingTranslations := true }

/-- The DOM for the C8 witness: the node currently shows the translation. -/
def c8Dom : Dom := [(5, ⟨"Hola".toList, true⟩)]

/-- Witness for C8 at a concrete one-entry registry. -/
theorem c8_witness :
    (c8State.hasTranslationCache = true ∧
     (0, c8Entry) ∈ c8State.textNodeMap ∧
     c8Entry.translated = true ∧
     c8Entry.translatedText ≠ [] ∧
     (c8State.textNodeMap.map (fun p => p.2.ref)).Nodup ∧
     List.lookup c8Entry.ref c8Dom = some (⟨"Hola".toList, true⟩ : DomNode) ∧
     (⟨"Hola".toList, true⟩ : DomNode).attached = true) ∧
    ((restoreOriginalText c8State c8Dom).1.textNodeMap = c8State.textNodeMap ∧
     List.lookup c8Entry.ref (restoreOriginalText c8State c8Dom).2 =
       some ⟨c8Entry.originalText, true⟩ ∧
     List.lookup c8Entry.ref
        (restoreCachedTranslations (restoreOriginalText c8State c8Dom).1
          (restoreOriginalText c8State c8Dom).2).2.2 =
      some ⟨c8Entry.translatedText, true⟩) :=
  ⟨⟨rfl, by decide, rfl, by decide, by decide, by decide, rfl⟩,
   c8_restore_roundtrip c8State c8Dom 0 c8Entry ⟨"Hola".toList, true⟩ rfl (by decide)
     rfl (by decide) (by decide) (by decide) rfl⟩

/-! ### translateBatch (content.js lines 443-522) -/

/-- One item of a Translator response: its id, its text (`[]` models a
missing or empty, i.e. falsy, text) and whether a per-item error string is
present. -/
structure RespItem where
  id : Nat
  text : List Char
  error : Bool
deriving DecidableEq, Repr

/-- A parsed Translator response: a truthy top-level `error` (which
`translateBatch` turns into a throw) and the `translations` array. -/
structure TResponse where
  error : Bool
  translations : List RespItem
deriving DecidableEq, Repr

/-- The Translator capability as seen by `translateBatch`: for each attempt
index, the languages sent with the request, the outcome of
`browserAPI.runtime.sendMessage`; `none` models a rejected promise. -/
def TOracle : Type := Nat → List Char → List Char → Option TResponse

/-- The source language actually sent (content.js lines 449-451): the passed
source language when truthy and different from auto, else the detected page
language. -/
def resolveSourceLanguage (sourceLanguage pageLanguage : List Char) : List Char :=
  if sourceLanguage ≠ [] ∧ sourceLanguage ≠ "auto".toList then sourceLanguage
  else pageLanguage

/-- The result of a `translateBatch` call, together with the observable
interaction trace: how many Translator calls were made and which backoff
delays (in ms) were awaited, in order. -/
structure BatchResult where
  applied : Nat
  failed : List QueueItem
  st : CState
  dom : Dom
  calls : Nat
  delays : List Nat
deriving Repr

/-- The response-processing loop of `translateBatch` (content.js
lines 472-500, first half): walk the `translations` array in order,
applying items with no error and truthy text via `replaceTextNode` and
collecting failures (per-item errors and failed node writes) in response
order. -/
def processTranslations (items : List QueueItem) :
    List RespItem → CState → Dom → Nat × List QueueItem × CState × Dom
  | [], st, dom => (0, [], st, dom)
  | t :: ts, st, dom =>
      if t.error = false ∧ t.text ≠ [] then
        let w := replaceTextNode st dom t.id t.text
        let r := processTranslations items ts w.2.1 w.2.2
        if w.1 then (r.1 + 1, r.2.1, r.2.2)
        else
          match items.find? (fun it => it.id == t.id) with
          | some orig => (r.1, orig :: r.2.1, r.2.2)
          | none => r
      else if t.error then
        let r := processTranslations items ts st dom
        match items.find? (fun it => it.id == t.id) with
        | some orig => (r.1, orig :: r.2.1, r.2.2)
        | none => r
      else
        processTranslations items ts st dom

/-- The requested items whose id never occurs in the response (content.js
lines 495-500: `receivedIds` bookkeeping), in request order. -/
def absentItems (items : List QueueItem) (ts : List RespItem) : List QueueItem :=
  items.filter (fun it => ts.all (fun t => !(t.id == it.id)))

/-- The retry loop of `translateBatch` (content.js lines 454-517), indexed by
the current attempt number and the number of remaining attempts.  A thrown
`sendMessage` or a truthy top-level response error counts one call, waits
`500 * (attempt + 1)` ms unless this was the final attempt, and retries; a
received response is processed and returned. -/
def tbLoop (oracle : TOracle) (items : List QueueItem)
    (targetLanguage pageLanguage : List Char) (st0 : CState) (dom0 : Dom) :
    Nat → Nat → BatchResult
  | _attempt, 0 => ⟨0, items, st0, dom0, 0, []⟩
  | attempt, remaining + 1 =>
      match oracle attempt targetLanguage pageLanguage with
      | some resp =>
          if resp.error = false then
            let r := processTranslations items resp.translations st0 dom0
            ⟨r.1, r.2.1 ++ absentItems items resp.translations, r.2.2.1, r.2.2.2, 1, []⟩
          else
            let r := tbLoop oracle items targetLanguage pageLanguage st0 dom0
              (attempt + 1) remaining
            ⟨r.applied, r.failed, r.st, r.dom, r.calls + 1,
             (if 0 < remaining then [500 * (attempt + 1)] else []) ++ r.delays⟩
      | none =>
          let r := tbLoop oracle items targetLanguage pageLanguage st0 dom0
            (attempt + 1) remaining
          ⟨r.applied, r.failed, r.st, r.dom, r.calls + 1,
           (if 0 < remaining then [500 * (attempt + 1)] else []) ++ r.delays⟩

/-- `translateBatch(textItems, targetLanguage, sourceLanguage, retries)`
(content.js lines 443-522).  An empty batch returns immediately; otherwise
the whole batch is attempted up to `retries` times; after the final failed
attempt every requested item is reported failed. -/
def translateBatch (oracle : TOracle) (items : List QueueItem)
    (targetLanguage sourceLanguage pageLanguage : List Char)
    (st : CState) (dom : Dom) (retries : Nat) : BatchResult :=
  if items.isEmpty then ⟨0, [], st, dom, 0, []⟩
  else tbLoop oracle items targetLanguage
    (resolveSourceLanguage sourceLanguage pageLanguage) st dom 0 retries

/-! ### Claim C10 -/

/-- C10: calling `translateBatch` with an empty item list returns
`{applied: 0, failed: []}` immediately, without invoking the Translator,
performing any retry, or waiting any backoff delay, for every oracle, every
target and source language, every state and every retry budget. -/
theorem c10_empty_batch_no_call (oracle : TOracle)
    (targetLanguage sourceLanguage pageLanguage : List Char)
    (st : CState) (dom : Dom) (retries : Nat) :
    translateBatch oracle [] targetLanguage sourceLanguage pageLanguage st dom retries =
      ⟨0, [], st, dom, 0, []⟩ := rfl

/-! ### Claim C3 -/

theorem tbLoop_all_fail (oracle : TOracle) (items : List QueueItem)
    (tgt pl : List Char) (st : CState) (dom : Dom)
    (hfail : ∀ (n : Nat) (r : TResponse), oracle n tgt pl = some r → r.error = true) :
    ∀ (remaining attempt : Nat),
    tbLoop oracle items tgt pl st dom attempt remaining =
      ⟨0, items, st, dom, remaining,
        (List.range' (attempt + 1) (remaining - 1)).map (fun k => 500 * k)⟩ := by
  intro remaining
  induction remaining with
  | zero => intro attempt; rfl
  | succ rem ih =>
      intro attempt
      cases ho : oracle attempt tgt pl with
      | none =>
          simp only [tbLoop, ho, ih (attempt + 1)]
          cases rem with
          | zero => simp
          | succ m =>
              simp only [Nat.succ_sub_one, Nat.add_sub_cancel]
              rw [List.range'_succ]
              simp [Nat.lt_succ_of_le (Nat.zero_le m)]
      | some resp =>
          have herr : resp.error = true := hfail attempt resp ho
          simp only [tbLoop, ho, herr, ih (attempt + 1)]
          cases rem with
          | zero => simp
          | succ m =>
              simp only [Nat.succ_sub_one, Nat.add_sub_cancel]
              rw [List.range'_succ]
              simp [Nat.lt_succ_of_le (Nat.zero_le m)]

/-- The response items that get applied (no per-item error, truthy text, a
node write that can succeed). -/
def appliedPred (cw : Nat → Bool) (t : RespItem) : Bool :=
  decide (t.error = false ∧ t.text ≠ [] ∧ cw t.id = true)

/-- The request item (if any) that a response item contributes to the failed
list: response items with a per-item error, and error-free items whose node
write fails, are mapped back to the request item of the same id. -/
def failedSel (items : List QueueItem) (cw : Nat → Bool) (t : RespItem) :
    Option QueueItem :=
  if t.error = true ∨ (t.text ≠ [] ∧ cw t.id = false)
  then items.find? (fun it => it.id == t.id) else none

theorem processTranslations_spec (items : List QueueItem) :
    ∀ (ts : List RespItem) (st : CState) (dom : Dom) (cw : Nat → Bool),
    (∀ j, canWrite st dom j = cw j) →
    (processTranslations items ts st dom).1 = (ts.filter (appliedPred cw)).length ∧
    (processTranslations items ts st dom).2.1 = ts.filterMap (failedSel items cw) ∧
    (∀ j, canWrite (processTranslations items ts st dom).2.2.1
        (processTranslations items ts st dom).2.2.2 j = cw j) := by
  intro ts
  induction ts with
  | nil =>
      intro st dom cw hcw
      exact ⟨rfl, rfl, hcw⟩
  | cons t ts ih =>
      intro st dom cw hcw
      by_cases hA : t.error = false ∧ t.text ≠ []
      · have hfst : (replaceTextNode st dom t.id t.text).1 = cw t.id := by
          rw [canWrite_eq_fst]; exact hcw t.id
        have hcw' : ∀ j, canWrite (replaceTextNode st dom t.id t.text).2.1
            (replaceTextNode st dom t.id t.text).2.2 j = cw j := by
          intro j; rw [canWrite_replaceTextNode]; exact hcw j
        obtain ⟨ih1, ih2, ih3⟩ := ih (replaceTextNode st dom t.id t.text).2.1
          (replaceTextNode st dom t.id t.text).2.2 cw hcw'
        cases hcwt : cw t.id with
        | true =>
            have hp : appliedPred cw t = true := by
              simp [appliedPred, hA.1, hA.2, hcwt]
            have hq : failedSel items cw t = none := by
              rw [failedSel, if_neg]
              simp [hA.1, hcwt]
            refine ⟨?_, ?_, ?_⟩
            · simp only [processTranslations, if_pos hA, hfst, hcwt, if_true]
              rw [List.filter_cons_of_pos hp, List.length_cons, ih1]
            · simp only [processTranslations, if_pos hA, hfst, hcwt, if_true]
              rw [List.filterMap_cons_none hq, ih2]
            · intro j
              simp only [processTranslations, if_pos hA, hfst, hcwt, if_true]
              exact ih3 j
        | false =>
            have hp : ¬(appliedPred cw t = true) := by
              simp [appliedPred, hcwt]
            have hqc : t.error = true ∨ (t.text ≠ [] ∧ cw t.id = false) :=
              Or.inr ⟨hA.2, hcwt⟩
            refine ⟨?_, ?_, ?_⟩
            · simp only [processTranslations, if_pos hA, hfst, hcwt,
                Bool.false_eq_true, if_false]
              rw [List.filter_cons_of_neg hp]
              cases hf : items.find? (fun it => it.id == t.id) with
              | none => exact ih1
              | some orig => exact ih1
            · simp only [processTranslations, if_pos hA, hfst, hcwt,
                Bool.false_eq_true, if_false]
              cases hf : items.find? (fun it => it.id == t.id) with
              | none =>
                  have hq : failedSel items cw t = none := by
                    rw [failedSel, if_pos hqc, hf]
                  rw [List.filterMap_cons_none hq]
                  exact ih2
              | some orig =>
                  have hq : failedSel items cw t = some orig := by
                    rw [failedSel, if_pos hqc, hf]
                  rw [List.filterMap_cons_some hq]
                  rw [ih2]
            · intro j
              simp only [processTranslations, if_pos hA, hfst, hcwt,
                Bool.false_eq_true, if_false]
              cases hf : items.find? (fun it => it.id == t.id) with
              | none => exact ih3 j
              | some orig => exact ih3 j
      · by_cases hB : t.error = true
        · obtain ⟨ih1, ih2, ih3⟩ := ih st dom cw hcw
          have hp : ¬(appliedPred cw t = true) := by
            simp [appliedPred, hB]
          have hqc : t.error = true ∨ (t.text ≠ [] ∧ cw t.id = false) := Or.inl hB
          refine ⟨?_, ?_, ?_⟩
          · simp only [processTranslations, if_neg hA, if_pos hB]
            rw [List.filter_cons_of_neg hp]
            cases hf : items.find? (fun it => it.id == t.id) with
            | none => exact ih1
            | some orig => exact ih1
          · simp only [processTranslations, if_neg hA, if_pos hB]
            cases hf : items.find? (fun it => it.id == t.id) with
            | none =>
                have hq : failedSel items cw t = none := by
                  rw [failedSel, if_pos hqc, hf]
                rw [List.filterMap_cons_none hq]
                exact ih2
            | some orig =>
                have hq : failedSel items cw t = some orig := by
                  rw [failedSel, if_pos hqc, hf]
                rw [List.filterMap_cons_some hq]
                rw [ih2]
          · intro j
            simp only [processTranslations, if_neg hA, if_pos hB]
            cases hf : items.find? (fun it => it.id == t.id) with
            | none => exact ih3 j
            | some orig => exact ih3 j
        · obtain ⟨ih1, ih2, ih3⟩ := ih st dom cw hcw
          have hte : t.error = false := by
            cases h : t.error
            · rfl
            · exact absurd h hB
          have htt : t.text = [] := by
            by_contra h
            exact hA ⟨hte, h⟩
          have hp : ¬(appliedPred cw t = true) := by
            simp [appliedPred, htt]
          have hq : failedSel items cw t = none := by
            rw [failedSel, if_neg]
            simp [hte, htt]
          refine ⟨?_, ?_, ?_⟩
          · simp only [processTranslations, if_neg hA, if_neg hB]
            rw [List.filter_cons_of_neg hp]
            exact ih1
          · simp only [processTranslations, if_neg hA, if_neg hB]
            rw [List.filterMap_cons_none hq]
            exact ih2
          · intro j
            simp only [processTranslations, if_neg hA, if_neg hB]
            exact ih3 j

theorem find_by_id_of_nodup (items : List QueueItem)
    (hids : (items.map QueueItem.id).Nodup) (it : QueueItem) (hmem : it ∈ items) :
    items.find? (fun x => x.id == it.id) = some it := by
  induction items with
  | nil => cases hmem
  | cons a rest ih =>
      rw [List.map_cons] at hids
      obtain ⟨hna, hnd⟩ := List.nodup_cons.mp hids
      rcases List.mem_cons.mp hmem with rfl | hmem'
      · rw [List.find?_cons_of_pos]
        simp
      · have hne : a.id ≠ it.id := by
          intro h
          exact hna (h ▸ List.mem_map.mpr ⟨it, hmem', rfl⟩)
        rw [List.find?_cons_of_neg]
        · exact ih hnd hmem'
        · simp [hne]

/-! ### Claim C1 -/

/-- C1: on a successful Translator response, `translateBatch` applies
exactly the response items with no per-item error, truthy text and a
succeeding node write; every requested id returned with a per-item error or
absent from the response ends up in the failed list (write-failures are
also collected, in response order, followed by the absent requests in
request order). -/
theorem c1_translateBatch_match_by_id (oracle : TOracle) (items : List QueueItem)
    (resp : TResponse) (targetLanguage sourceLanguage pageLanguage : List Char)
    (st : CState) (dom : Dom) (retries : Nat)
    (hne : items ≠ [])
    (hids : (items.map QueueItem.id).Nodup)
    (hsub : ∀ t ∈ resp.translations, ∃ it ∈ items, it.id = t.id)
    (h0 : oracle 0 targetLanguage (resolveSourceLanguage sourceLanguage pageLanguage)
        = some resp)
    (herr : resp.error = false)
    (hr : 0 < retries) :
    (translateBatch oracle items targetLanguage sourceLanguage pageLanguage
        st dom retries).applied
      = (resp.translations.filter (appliedPred (canWrite st dom))).length ∧
    (translateBatch oracle items targetLanguage sourceLanguage pageLanguage
        st dom retries).failed
      = resp.translations.filterMap (failedSel items (canWrite st dom))
          ++ absentItems items resp.translations ∧
    (∀ it ∈ items,
        ((∃ t ∈ resp.translations, t.id = it.id ∧ t.error = true) ∨
         (∀ t ∈ resp.translations, t.id ≠ it.id)) →
        it ∈ (translateBatch oracle items targetLanguage sourceLanguage pageLanguage
          st dom retries).failed) := by
  obtain ⟨m, rfl⟩ : ∃ m, retries = m + 1 := ⟨retries - 1, by omega⟩
  have hred : translateBatch oracle items targetLanguage sourceLanguage pageLanguage
      st dom (m + 1)
      = ⟨(processTranslations items resp.translations st dom).1,
         (processTranslations items resp.translations st dom).2.1
           ++ absentItems items resp.translations,
         (processTranslations items resp.translations st dom).2.2.1,
         (processTranslations items resp.translations st dom).2.2.2, 1, []⟩ := by
    rw [translateBatch, if_neg (by simpa using hne)]
    simp only [tbLoop, h0, herr, if_true]
  obtain ⟨h1, h2, _⟩ := processTranslations_spec items resp.translations st dom
      (canWrite st dom) (fun j => rfl)
  refine ⟨?_, ?_, ?_⟩
  · rw [hred]; exact h1
  · rw [hred]
    show (processTranslations items resp.translations st dom).2.1
        ++ absentItems items resp.translations = _
    rw [h2]
  · intro it hit hcond
    rw [hred]
    show it ∈ (processTranslations items resp.translations st dom).2.1
        ++ absentItems items resp.translations
    rcases hcond with ⟨t, htmem, htid, hterr⟩ | habs
    · apply List.mem_append_left
      rw [h2]
      apply List.mem_filterMap.mpr
      refine ⟨t, htmem, ?_⟩
      rw [failedSel, if_pos (Or.inl hterr), htid]
      exact find_by_id_of_nodup items hids it hit
    · apply List.mem_append_right
      apply List.mem_filter.mpr
      refine ⟨hit, ?_⟩
      apply List.all_eq_true.mpr
      intro t ht
      simp [habs t ht]

/-- The spec example request: ids 1 and 2. -/
def c1Items : List QueueItem := [⟨1, "Hello".toList, 0⟩, ⟨2, "World".toList, 0⟩]

/-- The spec example response: only id 1 translated. -/
def c1Resp : TResponse := ⟨false, [⟨1, "Hola".toList, false⟩]⟩

/-- Registry with both requested nodes present and attached. -/
def c1State : CState :=
  { idleState with
      textNodeMap := [(1, ⟨11, "Hello".toList, [], false⟩),
                      (2, ⟨12, "World".toList, [], false⟩)]
      nextId := 3 }

/-- The DOM for the C1 witness. -/
def c1Dom : Dom := [(11, ⟨"Hello".toList, true⟩), (12, ⟨"World".toList, true⟩)]

/-- A Translator stub returning the spec example response on every call. -/
def c1Oracle : TOracle := fun _ _ _ => some c1Resp

/-- Witness for C1 at the spec example: applied = 1 and
failed = the id-2 item. -/
theorem c1_witness :
    (c1Items ≠ [] ∧ (c1Items.map QueueItem.id).Nodup ∧
     (∀ t ∈ c1Resp.translations, ∃ it ∈ c1Items, it.id = t.id) ∧
     c1Oracle 0 ("es".toList) (resolveSourceLanguage ("auto".toList) ("en".toList))
       = some c1Resp ∧
     c1Resp.error = false ∧ 0 < 3) ∧
    (translateBatch c1Oracle c1Items ("es".toList) ("auto".toList) ("en".toList)
        c1State c1Dom 3).applied = 1 ∧
    (translateBatch c1Oracle c1Items ("es".toList) ("auto".toList) ("en".toList)
        c1State c1Dom 3).failed = [⟨2, "World".toList, 0⟩] :=
  ⟨⟨by decide, by decide, by decide, rfl, rfl, by decide⟩,
   by
     have h := c1_translateBatch_match_by_id c1Oracle c1Items c1Resp ("es".toList)
       ("auto".toList) ("en".toList) c1State c1Dom 3
       (by decide) (by decide) (by decide) rfl rfl (by decide)
     rw [h.1]
     decide,
   by
     have h := c1_translateBatch_match_by_id c1Oracle c1Items c1Resp ("es".toList)
       ("auto".toList) ("en".toList) c1State c1Dom 3
       (by decide) (by decide) (by decide) rfl rfl (by decide)
     rw [h.2.1]
     decide⟩

/-- C3: for a non-empty batch and a Translator failing every attempt at the
transport/parse level (rejected call or truthy top-level error),
`translateBatch` makes exactly `retries` Translator calls, awaiting a
backoff delay of 500 ms times the attempt number between consecutive
attempts, and then returns applied = 0 with the full requested item list as
failed, leaving registry and DOM untouched. -/
theorem c3_transport_failure_retries (oracle : TOracle) (items : List QueueItem)
    (targetLanguage sourceLanguage pageLanguage : List Char)
    (st : CState) (dom : Dom) (retries : Nat)
    (hne : items ≠ [])
    (hfail : ∀ (n : Nat) (r : TResponse),
        oracle n targetLanguage (resolveSourceLanguage sourceLanguage pageLanguage)
          = some r → r.error = true) :
    translateBatch oracle items targetLanguage sourceLanguage pageLanguage
        st dom retries =
      ⟨0, items, st, dom, retries,
        (List.range' 1 (retries - 1)).map (fun k => 500 * k)⟩ := by
  rw [translateBatch, if_neg (by simpa using hne)]
  exact tbLoop_all_fail oracle items _ _ st dom hfail retries 0

/-- Witness for C3: a 3-retry batch against an always-rejecting Translator
makes 3 calls with backoff delays 500 ms and 1000 ms. -/
theorem c3_witness :
    (([⟨1, "Hi".toList, 0⟩] : List QueueItem) ≠ [] ∧
     (∀ (n : Nat) (r : TResponse),
        (fun (_ : Nat) (_ _ : List Char) => (none : Option TResponse)) n ("es".toList)
          (resolveSourceLanguage ("auto".toList) ("en".toList)) = some r →
        r.error = true)) ∧
    translateBatch (fun _ _ _ => none) [⟨1, "Hi".toList, 0⟩] ("es".toList)
        ("auto".toList) ("en".toList) idleState [] 3 =
      ⟨0, [⟨1, "Hi".toList, 0⟩], idleState, [], 3, [500, 1000]⟩ :=
  ⟨⟨by decide, fun n r h => by cases h⟩,
   by
     rw [c3_transport_failure_retries (fun _ _ _ => none) [⟨1, "Hi".toList, 0⟩]
       ("es".toList) ("auto".toList) ("en".toList) idleState [] 3
       (by decide) (fun n r h => by cases h)]
     rfl⟩

/-! ### The translation run (`translatePage`, content.js lines 544-690) -/

/-- The per-run bookkeeping of `translatePage`, with the observable dispatch
trace.  `awaitIdx` counts completed awaits (batch calls and backoff
sleeps); since the script is single-threaded, the cancellation flag can
only change while an await is pending, so it is modelled as a function of
this counter.  Each dispatch records the await count at which the batch was
sent. -/
structure RunState where
  queue : List QueueItem
  totalApplied : Nat
  totalProcessed : Nat
  failedItems : List QueueItem
  callIdx : Nat
  awaitIdx : Nat
  dispatches : List (Nat × List QueueItem)

/-- The batch-translation capability as seen by the run loop: for the n-th
`translateBatch` invocation and its batch, `some (applied, failed)`; `none`
models a thrown error (caught, the whole batch marked failed). -/
def BatchOracle : Type := Nat → List QueueItem → Option (Nat × List QueueItem)

/-- The cancellation signal: the value of `translationCancelled` after a
given number of completed awaits. -/
def CancelSig : Type := Nat → Bool

/-- External interference with `pendingTranslationQueue` between awaits: the
scroll handler re-sorts it and the cancel handler clears it.  The
properties proved below hold under arbitrary interference. -/
def QueuePerturb : Type := Nat → List QueueItem → List QueueItem

/-- The drain loop of `translatePage` (content.js lines 584-613): while the
queue is non-empty and cancellation unobserved, splice off the first 8
items, send them, accumulate applied/failed counts, and re-check the flag
after the batch resolves. -/
def drainLoop (oracle : BatchOracle) (cancel : CancelSig) (perturb : QueuePerturb) :
    Nat → RunState → RunState
  | 0, s => s
  | fuel + 1, s =>
      let q := perturb s.awaitIdx s.queue
      if q.isEmpty || cancel s.awaitIdx then { s with queue := q }
      else
        let batch := q.take 8
        let s1 : RunState :=
          { s with queue := q.drop 8,
                   totalProcessed := s.totalProcessed + batch.length,
                   dispatches := s.dispatches ++ [(s.awaitIdx, batch)] }
        let res := match oracle s1.callIdx batch with
          | some r => r
          | none => (0, batch)
        let s2 : RunState :=
          { s1 with totalApplied := s1.totalApplied + res.1,
                    failedItems := s1.failedItems ++ res.2,
                    callIdx := s1.callIdx + 1,
                    awaitIdx := s1.awaitIdx + 1 }
        if cancel s2.awaitIdx then s2 else drainLoop oracle cancel perturb fuel s2

/-- The inner loop of one retry round (content.js lines 636-647): chunks of
4 failed items, each dispatched only while cancellation is unobserved. -/
def retryInner (oracle : BatchOracle) (cancel : CancelSig) :
    Nat → List QueueItem → RunState → RunState
  | 0, _, s => s
  | fuel + 1, itemsLeft, s =>
      if itemsLeft.isEmpty || cancel s.awaitIdx then s
      else
        let batch := itemsLeft.take 4
        let s1 : RunState := { s with dispatches := s.dispatches ++ [(s.awaitIdx, batch)] }
        let res := match oracle s1.callIdx batch with
          | some r => r
          | none => (0, batch)
        let s2 : RunState :=
          { s1 with totalApplied := s1.totalApplied + res.1,
                    failedItems := s1.failedItems ++ res.2,
                    callIdx := s1.callIdx + 1,
                    awaitIdx := s1.awaitIdx + 1 }
        retryInner oracle cancel fuel (itemsLeft.drop 4) s2

/-- The post-drain retry phase (content.js lines 616-648): up to 2 rounds;
each round first awaits a backoff sleep, then retries the collected failed
items in chunks of 4. -/
def retryRounds (oracle : BatchOracle) (cancel : CancelSig) :
    Nat → Nat → RunState → RunState
  | _, 0, s => s
  | attempt, fuelRounds + 1, s =>
      if s.failedItems.isEmpty || cancel s.awaitIdx then s
      else
        let s1 : RunState := { s with awaitIdx := s.awaitIdx + 1 }
        let toRetry := s1.failedItems
        let s2 : RunState := { s1 with failedItems := [] }
        let s3 := retryInner oracle cancel toRetry.length toRetry s2
        retryRounds oracle cancel (attempt + 1) fuelRounds s3

/-- What a start request produces: the state after the run (or after the
synchronous prefix if the request was rejected), the dispatch trace,
whether a run actually started, and whether the busy status was shown. -/
structure PageRunOutcome where
  state : CState
  dispatches : List (Nat × List QueueItem)
  runStarted : Bool
  busySignalled : Bool

/-- `translatePage(targetLanguage, sourceLanguage, enableAutoTranslate)`
(content.js lines 544-690).  A busy guard rejects concurrent runs with a
busy status; otherwise the run extracts, drains the queue in batches of 8,
runs up to 2 retry rounds, performs the completion bookkeeping, and the
`finally` block resets the flags and clears the pending queue. -/
def translatePageM (oracle : BatchOracle) (cancel : CancelSig)
    (perturb : QueuePerturb) (vp : Viewport) (walk : List CandNode)
    (st : CState) (targetLanguage sourceLanguage : List Char)
    (enableAutoTranslate : Bool) : PageRunOutcome :=
  if st.translationInProgress then ⟨st, [], false, true⟩
  else
    let st1 := { st with currentTargetLanguage := targetLanguage,
                         translationInProgress := true,
                         translationCancelled := false }
    let ext := extractTextNodesM vp walk false st1
    if ext.1.isEmpty then
      ⟨{ ext.2 with translationInProgress := false, translationCancelled := false,
                    pendingTranslationQueue := [] }, [], true, false⟩
    else
      let rs0 : RunState := ⟨ext.1, 0, 0, [], 0, 0, []⟩
      let rs1 := drainLoop oracle cancel perturb ext.1.length rs0
      let cancelledAtEnd := cancel rs1.awaitIdx
      let rs2 := if cancelledAtEnd then rs1 else retryRounds oracle cancel 0 2 rs1
      let completed := cancelledAtEnd = false ∧ 0 < rs2.totalApplied
      ⟨{ ext.2 with
           translationInProgress := false, translationCancelled := false,
           pendingTranslationQueue := [],
           hasTranslationCache := if completed then true else ext.2.hasTranslationCache,
           isShowingTranslations := if completed then true else ext.2.isShowingTranslations,
           autoTranslateEnabled :=
             if cancelledAtEnd = false ∧ enableAutoTranslate then true
             else ext.2.autoTranslateEnabled },
       rs2.dispatches, true, false⟩

/-- The result of the START_TRANSLATION message handler. -/
structure StartOutcome where
  run : PageRunOutcome
  responseStarted : Bool

/-- The `START_TRANSLATION` case of the message listener (content.js
lines 807-814): optionally update the glow setting, invoke `translatePage`
(whose synchronous prefix runs to its first await), and respond
`{started: true}` unconditionally. -/
def handleStartMessage (oracle : BatchOracle) (cancel : CancelSig)
    (perturb : QueuePerturb) (vp : Viewport) (walk : List CandNode)
    (msgShowGlow : Option Bool) (targetLanguage sourceLanguage : List Char)
    (st : CState) : StartOutcome :=
  let st0 := match msgShowGlow with
    | some g => { st with showGlow := g }
    | none => st
  ⟨translatePageM oracle cancel perturb vp walk st0 targetLanguage sourceLanguage true,
   true⟩

theorem drainLoop_guard (oracle : BatchOracle) (cancel : CancelSig)
    (perturb : QueuePerturb) :
    ∀ (fuel : Nat) (s : RunState),
    (∀ d ∈ s.dispatches, cancel d.1 = false) →
    ∀ d ∈ (drainLoop oracle cancel perturb fuel s).dispatches, cancel d.1 = false := by
  intro fuel
  induction fuel with
  | zero => intro s hs; exact hs
  | succ n ih =>
      intro s hs
      cases hb : ((perturb s.awaitIdx s.queue).isEmpty || cancel s.awaitIdx) with
      | true =>
          intro d hd
          simp only [drainLoop, hb, if_true] at hd
          exact hs d hd
      | false =>
          obtain ⟨hq, hcf⟩ := Bool.or_eq_false_iff.mp hb
          intro d hd
          simp only [drainLoop, hb, Bool.false_eq_true, if_false] at hd
          have hs1 : ∀ d ∈ s.dispatches ++ [(s.awaitIdx, (perturb s.awaitIdx s.queue).take 8)],
              cancel d.1 = false := by
            intro d hd'
            rcases List.mem_append.mp hd' with h | h
            · exact hs d h
            · rcases List.mem_singleton.mp h with rfl
              exact hcf
          cases hc2 : cancel (s.awaitIdx + 1) with
          | true =>
              rw [hc2] at hd
              simp only [if_true] at hd
              exact hs1 d hd
          | false =>
              rw [hc2] at hd
              simp only [Bool.false_eq_true, if_false] at hd
              exact ih _ hs1 d hd

theorem retryInner_guard (oracle : BatchOracle) (cancel : CancelSig) :
    ∀ (fuel : Nat) (itemsLeft : List QueueItem) (s : RunState),
    (∀ d ∈ s.dispatches, cancel d.1 = false) →
    ∀ d ∈ (retryInner oracle cancel fuel itemsLeft s).dispatches, cancel d.1 = false := by
  intro fuel
  induction fuel with
  | zero => intro itemsLeft s hs; exact hs
  | succ n ih =>
      intro itemsLeft s hs
      cases hb : (itemsLeft.isEmpty || cancel s.awaitIdx) with
      | true =>
          intro d hd
          simp only [retryInner, hb, if_true] at hd
          exact hs d hd
      | false =>
          obtain ⟨hq, hcf⟩ := Bool.or_eq_false_iff.mp hb
          intro d hd
          simp only [retryInner, hb, Bool.false_eq_true, if_false] at hd
          refine ih (itemsLeft.drop 4) _ ?_ d hd
          intro d hd'
          rcases List.mem_append.mp hd' with h | h
          · exact hs d h
          · rcases List.mem_singleton.mp h with rfl
            exact hcf

theorem retryRounds_guard (oracle : BatchOracle) (cancel : CancelSig) :
    ∀ (fuelRounds attempt : Nat) (s : RunState),
    (∀ d ∈ s.dispatches, cancel d.1 = false) →
    ∀ d ∈ (retryRounds oracle cancel attempt fuelRounds s).dispatches,
      cancel d.1 = false := by
  intro fuelRounds
  induction fuelRounds with
  | zero => intro attempt s hs; exact hs
  | succ n ih =>
      intro attempt s hs
      cases hb : (s.failedItems.isEmpty || cancel s.awaitIdx) with
      | true =>
          intro d hd
          simp only [retryRounds, hb, if_true] at hd
          exact hs d hd
      | false =>
          intro d hd
          simp only [retryRounds, hb, Bool.false_eq_true, if_false] at hd
          exact ih (attempt + 1) _
            (retryInner_guard oracle cancel s.failedItems.length s.failedItems
              { queue := s.queue, totalApplied := s.totalApplied,
                totalProcessed := s.totalProcessed, failedItems := [],
                callIdx := s.callIdx, awaitIdx := s.awaitIdx + 1,
                dispatches := s.dispatches } hs) d hd

theorem run_phase_guard (oracle : BatchOracle) (cancel : CancelSig)
    (perturb : QueuePerturb) (items : List QueueItem) :
    ∀ d ∈ (if cancel (drainLoop oracle cancel perturb items.length
            ⟨items, 0, 0, [], 0, 0, []⟩).awaitIdx
           then drainLoop oracle cancel perturb items.length ⟨items, 0, 0, [], 0, 0, []⟩
           else retryRounds oracle cancel 0 2
             (drainLoop oracle cancel perturb items.length
               ⟨items, 0, 0, [], 0, 0, []⟩)).dispatches,
      cancel d.1 = false := by
  have hdrain := drainLoop_guard oracle cancel perturb items.length
    ⟨items, 0, 0, [], 0, 0, []⟩ (fun d hd => absurd hd (by simp))
  by_cases hcend : cancel (drainLoop oracle cancel perturb items.length
      ⟨items, 0, 0, [], 0, 0, []⟩).awaitIdx = true
  · simp only [hcend, if_true]
    exact hdrain
  · simp only [hcend, Bool.false_eq_true, if_false]
    exact retryRounds_guard oracle cancel 2 0 _ hdrain

/-! ### Claim C4 -/

/-- C4: for every translation run, every batch dispatch to the Translator
(whether from the drain loop or from the post-drain retry phase) happens at
an await count where the cancellation flag reads false — so once
cancellation is signalled, no further batch is dispatched after the
in-flight batch call resolves — and the pending translation queue is empty
after the run ends; this holds for arbitrary Translator behaviour and
arbitrary queue interference between awaits. -/
theorem c4_cancellation_stops_dispatch (oracle : BatchOracle) (cancel : CancelSig)
    (perturb : QueuePerturb) (vp : Viewport) (walk : List CandNode) (st : CState)
    (targetLanguage sourceLanguage : List Char) (enableAuto : Bool)
    (h : st.translationInProgress = false) :
    (∀ d ∈ (translatePageM oracle cancel perturb vp walk st targetLanguage
        sourceLanguage enableAuto).dispatches, cancel d.1 = false) ∧
    (translatePageM oracle cancel perturb vp walk st targetLanguage
        sourceLanguage enableAuto).state.pendingTranslationQueue = [] := by
  simp only [translatePageM, h, Bool.false_eq_true, if_false]
  by_cases he : (extractTextNodesM vp walk false
      { st with currentTargetLanguage := targetLanguage,
                translationInProgress := true,
                translationCancelled := false }).1.isEmpty = true
  · simp only [he, if_true]
    exact ⟨fun d hd => absurd hd (by simp), trivial⟩
  · simp only [he, Bool.false_eq_true, if_false]
    refine ⟨?_, trivial⟩
    exact run_phase_guard oracle cancel perturb
      (extractTextNodesM vp walk false
        { st with currentTargetLanguage := targetLanguage,
                  translationInProgress := true,
                  translationCancelled := false }).1

/-- Witness for C4: a run over one node with cancellation arriving after the
first batch resolves. -/
theorem c4_witness :
    idleState.translationInProgress = false ∧
    ((∀ d ∈ (translatePageM (fun _ b => some (b.length, []))
          (fun i => decide (1 ≤ i)) (fun _ q => q) sampleVp [sampleNode] idleState
          ("es".toList) ("auto".toList) true).dispatches,
        (fun i => decide (1 ≤ i)) d.1 = false) ∧
      (translatePageM (fun _ b => some (b.length, [])) (fun i => decide (1 ≤ i))
          (fun _ q => q) sampleVp [sampleNode] idleState
          ("es".toList) ("auto".toList) true).state.pendingTranslationQueue = []) :=
  ⟨rfl,
   c4_cancellation_stops_dispatch (fun _ b => some (b.length, []))
     (fun i => decide (1 ≤ i)) (fun _ q => q) sampleVp [sampleNode] idleState
     ("es".toList) ("auto".toList) true rfl⟩

/-! ### Claim C2 -/

/-- A state in which a translation run is already active. -/
def busyState : CState :=
  { idleState with
      translationInProgress := true
      pendingTranslationQueue := [⟨0, "Hi".toList, 5⟩] }

/-- C2 counterexample: with a run already active, the start request is
rejected (no run starts, the busy status is shown) yet the handler still
responds `{started: true}` — so the `started` boolean does not report
whether a run was actually started, contrary to the claim. -/
theorem c2_counterexample :
    (handleStartMessage (fun _ _ => none) (fun _ => false) (fun _ q => q) sampleVp []
        none ("es".toList) ("auto".toList) busyState).responseStarted = true ∧
    (handleStartMessage (fun _ _ => none) (fun _ => false) (fun _ q => q) sampleVp []
        none ("es".toList) ("auto".toList) busyState).run.runStarted = false ∧
    (handleStartMessage (fun _ _ => none) (fun _ => false) (fun _ q => q) sampleVp []
        none ("es".toList) ("auto".toList) busyState).run.busySignalled = true :=
  ⟨rfl, rfl, rfl⟩

/-- C2 (amended): a start request arriving while a run is active starts no
second run — `translatePage` returns at its busy guard, leaving the run
state, queue and flags untouched (only the glow setting carried by the
message is stored) — and the request is rejected with a busy status rather
than queued; the start response, however, reports `{started: true}`
unconditionally rather than whether a run was actually started. -/
theorem c2_busy_start_rejected (oracle : BatchOracle) (cancel : CancelSig)
    (perturb : QueuePerturb) (vp : Viewport) (walk : List CandNode)
    (msgShowGlow : Option Bool) (targetLanguage sourceLanguage : List Char)
    (st : CState) (h : st.translationInProgress = true) :
    (handleStartMessage oracle cancel perturb vp walk msgShowGlow targetLanguage
        sourceLanguage st).run.runStarted = false ∧
    (handleStartMessage oracle cancel perturb vp walk msgShowGlow targetLanguage
        sourceLanguage st).run.busySignalled = true ∧
    (handleStartMessage oracle cancel perturb vp walk msgShowGlow targetLanguage
        sourceLanguage st).run.dispatches = [] ∧
    (handleStartMessage oracle cancel perturb vp walk msgShowGlow targetLanguage
        sourceLanguage st).run.state =
      (match msgShowGlow with
        | some g => { st with showGlow := g }
        | none => st) ∧
    (handleStartMessage oracle cancel perturb vp walk msgShowGlow targetLanguage
        sourceLanguage st).responseStarted = true := by
  cases msgShowGlow with
  | none => simp [handleStartMessage, translatePageM, h]
  | some g => simp [handleStartMessage, translatePageM, h]

/-- Witness for C2 (amended) at a concrete busy state. -/
theorem c2_witness :
    busyState.translationInProgress = true ∧
    ((handleStartMessage (fun _ _ => none) (fun _ => false) (fun _ q => q) sampleVp []
        (some true) ("es".toList) ("auto".toList) busyState).run.runStarted = false ∧
     (handleStartMessage (fun _ _ => none) (fun _ => false) (fun _ q => q) sampleVp []
        (some true) ("es".toList) ("auto".toList) busyState).run.busySignalled = true ∧
     (handleStartMessage (fun _ _ => none) (fun _ => false) (fun _ q => q) sampleVp []
        (some true) ("es".toList) ("auto".toList) busyState).run.dispatches = [] ∧
     (handleStartMessage (fun _ _ => none) (fun _ => false) (fun _ q => q) sampleVp []
        (some true) ("es".toList) ("auto".toList) busyState).run.state =
       (match (some true : Option Bool) with
         | some g => { busyState with showGlow := g }
         | none => busyState) ∧
     (handleStartMessage (fun _ _ => none) (fun _ => false) (fun _ q => q) sampleVp []
        (some true) ("es".toList) ("auto".toList) busyState).responseStarted = true) :=
  ⟨rfl,
   c2_busy_start_rejected (fun _ _ => none) (fun _ => false) (fun _ q => q) sampleVp []
     (some true) ("es".toList) ("auto".toList) busyState rfl⟩
